import Mathlib

/-!
Verification of the AgenteIA LLM-orchestration agent (semantic tool selection,
argument extraction, tool execution, conversational memory).

Shallow embedding conventions:
- Python dicts are association lists (`List (String × _)`); insertion keeps the
  position of an existing key and appends a new key at the end, matching CPython
  dict semantics.
- JSON-ish runtime values are `JVal`; Python `int` and `float` are kept apart
  (`JVal.int` / `JVal.num`) because `isinstance` distinguishes them, and scores,
  thresholds and delays are modelled over `ℚ` (machine floats abstracted to an
  ordered field: every branch in the modelled code only compares, adds and
  scales these quantities).
- External effects (Gemini embedding calls, the MCP SSE session, Python ``str``
  rendering and ``json.loads`` on arbitrary strings, wall-clock time) are
  oracle parameters; all theorems quantify over them.
-/

namespace Spec2Proof

/-- JSON-like runtime value (the shapes flowing through the agent's dicts).
Python `int` and `float` are separate constructors because the code's
`isinstance` checks distinguish them. -/
inductive JVal where
  | null : JVal
  | bool : Bool → JVal
  | int : Int → JVal
  | num : ℚ → JVal
  | str : String → JVal
  | arr : List JVal → JVal
  | obj : List (String × JVal) → JVal

/-- A Python dict with `JVal` values, as an association list in insertion order. -/
abbrev JDict := List (String × JVal)

/-- `d.get(k)` / `d[k]` lookup: first entry with the key. -/
def jlookup (d : JDict) (k : String) : Option JVal :=
  (d.find? (fun p => p.1 == k)).map (fun p => p.2)

/-- `list(d.keys())`. -/
def jkeys (d : List (String × α)) : List String := d.map (fun p => p.1)

/-- `d[k] = v`: replace in place if the key exists, else append at the end
(CPython dict assignment order semantics). -/
def jset (d : JDict) (k : String) (v : JVal) : JDict :=
  if d.any (fun p => p.1 == k) then d.map (fun p => if p.1 == k then (k, v) else p)
  else d ++ [(k, v)]

/-- `d.pop(k, None)`: drop every entry with the key (on a dict, at most one). -/
def jremove (d : JDict) (k : String) : JDict := d.filter (fun p => p.1 ≠ k)

/-- Python truthiness of a JSON-like value. -/
def jtruthy : JVal → Bool
  | .null => false
  | .bool b => b
  | .int n => n ≠ 0
  | .num q => q ≠ 0
  | .str s => s ≠ ""
  | .arr l => !l.isEmpty
  | .obj l => !l.isEmpty

/-! ## MemoryContext (`app/agent/core/memory_context.py`) -/

/-- `ConversationMessage`: role (`"user"`/`"assistant"`), content, metadata and a
timestamp (wall clock abstracted to a `ℚ` supplied by the caller). -/
structure ConversationMessage where
  role : String
  content : String
  metadata : JDict := []
  timestamp : ℚ := 0

/-- `MemoryContext`: bounded conversational memory. -/
structure MemoryContext where
  max_messages : Nat
  messages : List ConversationMessage

/-- Python `l[-m:]` for a non-negative `m`.  For `m = 0` the slice `[-0:]` is
`[0:]`, i.e. the whole list — the quirk behind the `max_messages = 0` edge. -/
def pyTailSlice (l : List α) (m : Nat) : List α :=
  if m = 0 then l else l.drop (l.length - m)

/-- `MemoryContext.add_message`: append, then trim to the last `max_messages`
entries whenever the bound is exceeded. -/
def MemoryContext.add_message (ctx : MemoryContext) (msg : ConversationMessage) :
    MemoryContext :=
  let ms := ctx.messages ++ [msg]
  if ms.length > ctx.max_messages then
    { ctx with messages := pyTailSlice ms ctx.max_messages }
  else
    { ctx with messages := ms }

/-- Replay a whole insertion sequence into a fresh `MemoryContext`. -/
def addAll (maxMessages : Nat) (msgs : List ConversationMessage) : MemoryContext :=
  msgs.foldl MemoryContext.add_message ⟨maxMessages, []⟩

/-- The last `m` elements of a list (the intended "keep the most recent" trim). -/
def takeLast (m : Nat) (l : List α) : List α := l.drop (l.length - m)

/-! ## SemanticSelector decision (`app/agent/core/semantic_selector.py`) -/

/-- The tool-definition record kept by `SemanticRegistry`
(`app/agent/registry/semantic_registry.py`); usage counters are omitted as no
modelled code path reads them. -/
structure ToolDefinition where
  name : String
  description : String
  example_ : String
  category : Option String
  text_content : Option String

/-- `RankedTool`: a scored candidate (score over `ℚ`, abstracting the float). -/
structure RankedTool where
  name : String
  score : ℚ
  tool : ToolDefinition

/-- The four decision parameters of `SemanticSelector.decide`: its two instance
thresholds and the two `min_score_gap_*` values read from the global
`SemanticConfig` at decision time. -/
structure SelectorThresholds where
  direct_threshold : ℚ
  confirm_threshold : ℚ
  min_score_gap_direct : ℚ
  min_score_gap_confirm : ℚ

/-- The shipped defaults: `DIRECT_THRESHOLD=0.70`, `CONFIRM_THRESHOLD=0.40`,
`MIN_SCORE_GAP_DIRECT=0.15`, `MIN_SCORE_GAP_CONFIRM=0.10`
(`app/config/config.py`). -/
def defaultThresholds : SelectorThresholds :=
  { direct_threshold := 7/10
    confirm_threshold := 2/5
    min_score_gap_direct := 3/20
    min_score_gap_confirm := 1/10 }

/-- `SemanticSelector.decide`: route from the ranked candidates.  The gap to the
second-best score (0.0 when there is a single candidate) gates the `direct` and
`confirm` routes. -/
def SemanticSelector.decide (th : SelectorThresholds) (ranked : List RankedTool) :
    String × Option RankedTool :=
  match ranked with
  | [] => (("conversation"), none)
  | best :: rest =>
    let second : ℚ := match rest with | [] => 0 | s :: _ => s.score
    let gap := best.score - second
    let decision :=
      if best.score < th.confirm_threshold then ("conversation")
      else if th.direct_threshold ≤ best.score ∧ th.min_score_gap_direct ≤ gap then
        ("direct")
      else if th.confirm_threshold ≤ best.score ∧ th.min_score_gap_confirm ≤ gap then
        ("confirm")
      else ("conversation")
    (decision, some best)

/-! ## JSON-schema shapes

The agent's code reads exactly these keys of a tool schema dict: `required`
(list of property names), `properties` (dict of property definitions), and on a
property definition `type`, `properties`, `required`, `$ref`, `anyOf`.  The
embedding represents schemas in that well-typed shape. -/

/-- A JSON-schema property definition (`type` / nested `properties` /
nested `required` / truthiness of `$ref` and `anyOf`). -/
inductive PropDef where
  | mk (ptype : Option String) (pprops : Option (List (String × PropDef)))
      (preq : List String) (hasRefKey : Bool) (hasAnyOfKey : Bool)

def PropDef.ptype : PropDef → Option String
  | .mk t _ _ _ _ => t

def PropDef.pprops : PropDef → Option (List (String × PropDef))
  | .mk _ p _ _ _ => p

def PropDef.preq : PropDef → List String
  | .mk _ _ r _ _ => r

def PropDef.hasRefKey : PropDef → Bool
  | .mk _ _ _ r _ => r

def PropDef.hasAnyOfKey : PropDef → Bool
  | .mk _ _ _ _ a => a

/-- The `{}` property definition (`props.get(root, {})`). -/
def PropDef.empty : PropDef := .mk none none [] false false

/-- A tool schema: its `required` list and `properties` dict. -/
structure Schema where
  required : List String
  properties : List (String × PropDef)

/-- Generic assoc-list lookup (Python `d.get(k)`). -/
def alookup (d : List (String × α)) (k : String) : Option α :=
  (d.find? (fun p => p.1 == k)).map (fun p => p.2)

/-- Generic assoc-list `d[k] = v` with CPython dict position semantics. -/
def aset (d : List (String × α)) (k : String) (v : α) : List (String × α) :=
  if d.any (fun p => p.1 == k) then d.map (fun p => if p.1 == k then (k, v) else p)
  else d ++ [(k, v)]

/-- The object-root test used across the codebase:
`len(req) == 1 and isinstance(props.get(req[0], {}), dict) and
props.get(req[0], {}).get("type") == "object"`.  Returns the root key and its
property definition when it holds. -/
def isObjectRoot (s : Schema) : Option (String × PropDef) :=
  match s.required with
  | [r] =>
    match alookup s.properties r with
    | some pd => if pd.ptype = some ("object") then some (r, pd) else none
    | none => none
  | _ => none

/-! ## String helpers used by `ToolManager.normalize_arguments` -/

/-- Python `s.lower()` (ASCII), written over the character list so that it
reduces in the kernel. -/
def lowerStr (s : String) : String := String.mk (s.data.map Char.toLower)

/-- `re.sub(r"[^a-z0-9]", "", k.lower())`. -/
def stripNonAlnum (s : String) : String :=
  String.mk ((lowerStr s).data.filter (fun c => c.isLower ∨ c.isDigit))

/-- One left-to-right pass of `re.sub(r"([a-z])([A-Z])", r"\1 \2", ·)`:
insert a space between a lowercase letter and the uppercase letter after it
(matches cannot overlap because the second character of a match is uppercase). -/
def camelSplitAux : List Char → List Char
  | [] => []
  | [c] => [c]
  | c1 :: c2 :: rest =>
    if c1.isLower ∧ c2.isUpper then c1 :: ' ' :: camelSplitAux (c2 :: rest)
    else c1 :: camelSplitAux (c2 :: rest)

/-- `re.sub(r"([a-z])([A-Z])", r"\1 \2", k).lower()`. -/
def camelSplit (s : String) : String :=
  lowerStr (String.mk (camelSplitAux s.data))

/-- `re.sub(r"\s+", "", s)`. -/
def removeSpaces (s : String) : String :=
  String.mk (s.data.filter (fun c => ¬ c.isWhitespace))

/-- Accumulator pass for `dedupKeepFirst`. -/
def dedupAux (seen : List String) : List String → List String
  | [] => []
  | x :: xs => if x ∈ seen then dedupAux seen xs else x :: dedupAux (x :: seen) xs

/-- `list(dict.fromkeys(v))`: deduplicate keeping first occurrences. -/
def dedupKeepFirst (l : List String) : List String := dedupAux [] l

/-- The `key_variants` closure inside `ToolManager.normalize_arguments`. -/
def key_variants (k : String) : List String :=
  dedupKeepFirst [k, lowerStr k, stripNonAlnum k, camelSplit k,
    removeSpaces (camelSplit k)]

/-- `{str(kk).lower(): kk for kk in list(args.keys())}` (later duplicates of a
lowercase form overwrite earlier ones). -/
def flatLower (ks : List String) : List (String × String) :=
  ks.foldl (fun acc kk => aset acc (lowerStr kk) kk) []

/-- `for kv in key_variants(k): if kv in flat_lower: orig = flat_lower[kv]; break`. -/
def firstVariantHit (variants : List String) (fl : List (String × String)) :
    Option String :=
  variants.findSome? (fun kv => alookup fl kv)

/-! ## ToolManager (`app/agent/core/tool_manager.py`) -/

/-- The two collection loops inside `normalize_arguments`: first the inner
`required` names, then the remaining inner property names, each matched
against the lowercased flat keys through `key_variants`. -/
def collectInnerArgs (inner_required : List String)
    (inner_props : List (String × PropDef)) (args : JDict) : JDict :=
  let fl := flatLower (jkeys args)
  let c1 := inner_required.foldl (fun c k =>
    match firstVariantHit (key_variants k) fl with
    | some orig => jset c k ((jlookup args orig).getD .null)
    | none => c) []
  (jkeys inner_props).foldl (fun c k =>
    if (jlookup c k).isSome then c
    else
      match firstVariantHit (key_variants k) fl with
      | some orig => jset c k ((jlookup args orig).getD .null)
      | none => c) c1

/-- `ToolManager.normalize_arguments`: for an object-root schema whose root key
is absent from the arguments, collect flat keys that match an inner property
(by the lowercase/camelCase/punctuation variants), pop the *inner names* from
the top level and nest the collected dict under the root key; anything else is
returned unchanged. -/
def ToolManager.normalize_arguments (s : Schema) (arguments : JDict) : JDict :=
  match s.required with
  | [root] =>
    let root_prop := (alookup s.properties root).getD PropDef.empty
    if root_prop.ptype = some ("object") then
      let args := arguments
      if (jlookup args root).isSome then args
      else
        let collected :=
          collectInnerArgs root_prop.preq (root_prop.pprops.getD []) args
        if collected.isEmpty then args
        else
          let args' := (jkeys collected).foldl (fun a k => jremove a k) args
          jset args' root (.obj collected)
    else arguments
  | _ => arguments

/-- `ToolManager._validate_type` (note: Python `bool` is a subclass of `int`,
so booleans pass the `integer` and `number` checks). -/
def validateType (v : JVal) (t : String) : Bool :=
  match t with
  | "string" => match v with | .str _ => true | _ => false
  | "integer" => match v with | .int _ => true | .bool _ => true | _ => false
  | "number" => match v with | .int _ => true | .num _ => true | .bool _ => true | _ => false
  | "boolean" => match v with | .bool _ => true | _ => false
  | "array" => match v with | .arr _ => true | _ => false
  | "object" => match v with | .obj _ => true | _ => false
  | _ => true

/-- Python `type(v).__name__` for the modelled value shapes. -/
def pyTypeName : JVal → String
  | .null => "NoneType"
  | .bool _ => "bool"
  | .int _ => "int"
  | .num _ => "float"
  | .str _ => "str"
  | .arr _ => "list"
  | .obj _ => "dict"

def msgJoin (l : List String) : String := String.intercalate (", ") l

/-- `f"{m}:{tp}"` with `tp = (inner_props.get(m, {}) or {}).get("type") or "string"`. -/
def innerTypeTag (inner_props : List (String × PropDef)) (m : String) : String :=
  let tp :=
    match alookup inner_props m with
    | some pd =>
      match pd.ptype with
      | some t => if t = "" then ("string") else t
      | none => ("string")
    | none => ("string")
  m ++ (":") ++ tp

/-- `ToolManager._validate_arguments` (error-message strings keep the wording
minus the quote characters around interpolated names). -/
def ToolManager.validate_arguments (schemas : List (String × Schema))
    (tool_name : String) (arguments : JDict) : Option String :=
  match alookup schemas tool_name with
  | none => none
  | some schema =>
    match isObjectRoot schema with
    | some (root, inner) =>
      let inner_req := inner.preq
      let inner_props := inner.pprops.getD []
      let root_val := (jlookup arguments root).getD (.obj [])
      match root_val with
      | .obj rv =>
        let missing := inner_req.filter (fun f => (jlookup rv f).isNone)
        if ¬ missing.isEmpty then
          some (("La herramienta ") ++ tool_name ++
            (" requiere los siguientes campos internos: ") ++
            msgJoin (missing.map (innerTypeTag inner_props)))
        else
          rv.findSome? (fun p =>
            match alookup inner_props p.1 with
            | some pd =>
              match pd.ptype with
              | some et =>
                if et ≠ "" ∧ ¬ validateType p.2 et then
                  some (("Campo ") ++ root ++ (".") ++ p.1 ++
                    (" debe ser de tipo ") ++ et ++ (" pero es ") ++ pyTypeName p.2)
                else none
              | none => none
            | none => none)
      | _ =>
        some (("La herramienta ") ++ tool_name ++ (" requiere objeto raíz ") ++
          root ++ (" de tipo dict. Faltan: ") ++ msgJoin inner_req)
    | none =>
      let missing := schema.required.filter (fun r => (jlookup arguments r).isNone)
      if ¬ missing.isEmpty then
        some (("La herramienta ") ++ tool_name ++
          (" requiere los siguientes campos: ") ++ msgJoin missing ++
          (" (estructura: flat)"))
      else
        arguments.findSome? (fun p =>
          match alookup schema.properties p.1 with
          | some pd =>
            match pd.ptype with
            | some et =>
              if et ≠ "" ∧ ¬ validateType p.2 et then
                some (("Campo ") ++ p.1 ++ (" debe ser de tipo ") ++ et ++
                  (" pero es ") ++ pyTypeName p.2)
              else none
            | none => none
          | none => none)

/-- Oracles for the two Python library calls the error-cleaning logic makes on
data the embedding keeps opaque: `str()` on floats/lists/dicts, and
`json.loads` on an arbitrary string (`none` models a parse error). -/
structure PyOracle where
  pyStr : JVal → String
  jsonLoads : String → Option JVal

/-- Python `str(v)` for the value shapes whose rendering is fixed; floats,
lists and dicts defer to the oracle. -/
def pyRender (po : PyOracle) : JVal → String
  | .str s => s
  | .null => "None"
  | .bool true => "True"
  | .bool false => "False"
  | .int n => toString n
  | v => po.pyStr v

/-- `"Error executing tool" in text`. -/
def strContains (s pat : String) : Bool :=
  (List.range (s.data.length + 1)).any
    (fun i => (s.data.drop i).take pat.data.length == pat.data)

/-- `x or y` on JSON values (Python truthiness). -/
def pyOrJ (x y : JVal) : JVal := if jtruthy x then x else y

/-- The text-part scan shared by the two `elif` branches of the result-cleaning
code in `ToolManager.execute_tool`. -/
def textPartError (po : PyOracle) (first : JVal) : Option String :=
  match first with
  | .obj f =>
    match jlookup f ("type") with
    | some (.str t) =>
      if t = ("text") then
        let text := match jlookup f ("text") with
          | some v => pyRender po v
          | none => ""
        if strContains text ("Error executing tool") then some text else none
      else none
    | _ => none
  | _ => none

/-- The `cleaned_error` / `cleaned_meta` computation inside
`ToolManager.execute_tool` after a handler returned `result`. -/
def cleanedErrorOf (po : PyOracle) (result : JVal) : Option String × JDict :=
  match result with
  | .obj d =>
    let statusIsError :=
      lowerStr (pyRender po ((jlookup d ("status")).getD .null)) == ("error")
    let errTruthy := jtruthy ((jlookup d ("error")).getD .null)
    if statusIsError ∨ errTruthy = true then
      let body := pyOrJ ((jlookup d ("body")).getD .null) ((jlookup d ("error")).getD .null)
      let parsed? : Option JVal :=
        match body with
        | .str s => po.jsonLoads s
        | .obj od => some (.obj od)
        | _ => some (.obj [(("message"), .str (pyRender po body))])
      match parsed? with
      | some (.obj p) =>
        let code := pyOrJ ((jlookup p ("code")).getD .null) ((jlookup p ("status")).getD .null)
        let msg := pyOrJ ((jlookup p ("message")).getD .null) (.str ("Error en la herramienta"))
        let details := pyOrJ ((jlookup p ("details")).getD .null) (.arr [])
        (some (pyRender po code ++ (": ") ++ pyRender po msg),
          [(("details"), details), (("path"), (jlookup p ("path")).getD .null)])
      | _ =>
        (some (pyRender po (pyOrJ body result)), [])
    else
      match jlookup d ("result") with
      | some (.arr (first :: _)) => (textPartError po first, [])
      | _ => (none, [])
  | .arr (first :: _) => (textPartError po first, [])
  | _ => (none, [])

/-- Execution status of a tool run. -/
inductive ExecutionStatus where
  | success | error | timeout | validation_error | not_found
deriving DecidableEq, Repr

/-- `ExecutionResult` (the wall-clock `execution_time` field is omitted from
the embedding). -/
structure ExecutionResult where
  status : ExecutionStatus
  result : Option JVal := none
  error : Option String := none
  tool_name : String := ""
  arguments : JDict := []
  retry_count : Nat := 0
  metadata : JDict := []

/-- Outcome of one handler invocation (`_execute_with_timeout`): a returned
value, a raised exception, or an `asyncio.TimeoutError`. -/
inductive HandlerOutcome where
  | ok (v : JVal)
  | raise (e : String)
  | timeout

/-- `ToolManager` configuration and registration state; handlers themselves
are supplied per call as an outcome oracle indexed by attempt number. -/
structure ToolManager where
  max_retries : Nat := 2
  timeout_seconds : Nat := 30
  enable_validation : Bool := true
  registered_tools : List String := []
  tool_schemas : List (String × Schema) := []

/-- Observable outcome of `execute_tool`: the result, how many times the
handler ran, and the `asyncio.sleep` durations (seconds, as `ℚ`) in order. -/
structure ExecOutcome where
  res : ExecutionResult
  handlerCalls : Nat
  sleeps : List ℚ

/-- The retry loop of `ToolManager.execute_tool` (`while retry_count <=
max_retries`); on a failed non-final attempt `k` it sleeps
`0.5 * retry_count = 0.5 * (k + 1)` seconds. -/
def executeAttempts (tm : ToolManager) (po : PyOracle)
    (handler : Nat → HandlerOutcome) (tool_name : String) (args : JDict)
    (retry_count : Nat) (lastError : Option String) (calls : Nat)
    (sleeps : List ℚ) : ExecOutcome :=
  if _h : retry_count ≤ tm.max_retries then
    match handler retry_count with
    | .ok result =>
      match cleanedErrorOf po result with
      | (some cleaned, meta) =>
        ⟨{ status := .error, error := some cleaned, tool_name := tool_name,
           arguments := args, retry_count := retry_count, metadata := meta },
          calls + 1, sleeps⟩
      | (none, _) =>
        ⟨{ status := .success, result := some result, tool_name := tool_name,
           arguments := args, retry_count := retry_count }, calls + 1, sleeps⟩
    | .timeout =>
      let msg := ("Timeout después de ") ++ toString tm.timeout_seconds ++ (" segundos")
      if tm.max_retries ≤ retry_count then
        ⟨{ status := .timeout, error := some msg, tool_name := tool_name,
           arguments := args, retry_count := retry_count }, calls + 1, sleeps⟩
      else
        executeAttempts tm po handler tool_name args (retry_count + 1) (some msg)
          (calls + 1) (sleeps ++ [(1/2 : ℚ) * ((retry_count : ℚ) + 1)])
    | .raise e =>
      if tm.max_retries ≤ retry_count then
        ⟨{ status := .error, error := some e, tool_name := tool_name,
           arguments := args, retry_count := retry_count }, calls + 1, sleeps⟩
      else
        executeAttempts tm po handler tool_name args (retry_count + 1) (some e)
          (calls + 1) (sleeps ++ [(1/2 : ℚ) * ((retry_count : ℚ) + 1)])
  else
    ⟨{ status := .error, error := some (lastError.getD ("Error desconocido")),
       tool_name := tool_name, arguments := args, retry_count := retry_count },
      calls, sleeps⟩
termination_by tm.max_retries + 1 - retry_count
decreasing_by all_goals omega

/-- `ToolManager.execute_tool`: registration check, argument normalization,
optional validation, then the retry loop. -/
def ToolManager.execute_tool (tm : ToolManager) (po : PyOracle)
    (handler : Nat → HandlerOutcome) (tool_name : String) (arguments : JDict) :
    ExecOutcome :=
  if tool_name ∉ tm.registered_tools then
    ⟨{ status := .not_found,
       error := some (("Herramienta no encontrada: ") ++ tool_name),
       tool_name := tool_name, arguments := arguments }, 0, []⟩
  else
    let schema := (alookup tm.tool_schemas tool_name).getD ⟨[], []⟩
    let args := ToolManager.normalize_arguments schema arguments
    let validation_error :=
      if tm.enable_validation then
        ToolManager.validate_arguments tm.tool_schemas tool_name args
      else none
    match validation_error with
    | some err =>
      ⟨{ status := .validation_error, error := some err, tool_name := tool_name,
         arguments := args }, 0, []⟩
    | none => executeAttempts tm po handler tool_name args 0 none 0 []

/-! ## MCPClient (`app/client/mcp_http_client.py`) -/

/-- A tool record as returned by `MCPClient.get_available_tools`. -/
structure MCPToolInfo where
  name : String
  description : String
  parameters : Option JVal

/-- The retry loop of `MCPClient.get_available_tools`: `max_retries = 3`,
`base_delay = 2`; on a failed non-final attempt it sleeps
`base_delay * 2 ** attempt`; after the last failure it returns `[]`.  The whole
SSE session and tool-list parsing of one attempt is the oracle `o`. -/
def mcpAttemptLoop (o : Nat → Except String (List MCPToolInfo)) (attempt : Nat)
    (sleeps : List ℚ) : List MCPToolInfo × List ℚ :=
  if _h : attempt < 3 then
    match o attempt with
    | .ok tools => (tools, sleeps)
    | .error _ =>
      if attempt < 2 then
        mcpAttemptLoop o (attempt + 1) (sleeps ++ [(2 : ℚ) * 2 ^ attempt])
      else ([], sleeps)
  else ([], sleeps)
termination_by 3 - attempt
decreasing_by all_goals omega

/-- `MCPClient.get_available_tools` (result list and sleep sequence). -/
def MCPClient.get_available_tools (o : Nat → Except String (List MCPToolInfo)) :
    List MCPToolInfo × List ℚ :=
  mcpAttemptLoop o 0 []

/-! ## SchemaExtractor (`app/agent/core/schema_extractor.py`) -/

/-- The `properties`/`required` part of a pydantic `model_json_schema()`. -/
structure ModelSchema where
  mprops : List (String × PropDef)
  mreq : List String

/-- Oracle for `MCPModelMapper` (`app/models/mcp_models.py`): pydantic model
lookup by tool name and by schema shape, both returning the model's JSON
schema when a model exists. -/
structure ModelMapper where
  getCreateModel : String → Option ModelSchema
  resolveModelBySchema : Schema → Option ModelSchema

/-- `SchemaExtractor._ensure_properties_inlined`: inline pydantic model
properties into schemas whose `properties` are missing, `$ref`-indirect or
untyped.  `tool_name` is optional and the empty string is falsy. -/
def ensurePropertiesInlined (mm : ModelMapper) (s : Schema)
    (tool_name : Option String) : Schema :=
  let s1 :=
    if ¬ s.required.isEmpty ∧ s.properties.isEmpty then
      match tool_name with
      | some tn =>
        if tn ≠ "" then
          match mm.getCreateModel tn with
          | some js => { s with properties := js.mprops }
          | none => s
        else s
      | none => s
    else s
  let s2 :=
    match s1.required with
    | [root] =>
      let inner0 := (alookup s1.properties root).getD PropDef.empty
      match tool_name with
      | some tn =>
        if tn ≠ "" then
          let inner1 :=
            match mm.getCreateModel tn with
            | some js =>
              if inner0.ptype ≠ some ("object") ∨ (inner0.pprops.getD []).isEmpty ∨
                  inner0.hasRefKey ∨ inner0.hasAnyOfKey then
                PropDef.mk (some ("object")) (some js.mprops) js.mreq false false
              else if inner0.preq.isEmpty then
                PropDef.mk inner0.ptype inner0.pprops js.mreq inner0.hasRefKey
                  inner0.hasAnyOfKey
              else inner0
            | none => inner0
          { s1 with properties := aset s1.properties root inner1 }
        else s1
      | none => s1
    | _ => s1
  if s2.properties.isEmpty then s2
  else
    let step := fun (acc : Schema) (p : String × PropDef) =>
      if p.2.hasRefKey ∨
          ((p.2.ptype = none ∨ p.2.ptype = some ("")) ∧ p.2.pprops.isNone) then
        let model :=
          match tool_name with
          | some tn =>
            if tn ≠ "" then mm.getCreateModel tn else mm.resolveModelBySchema acc
          | none => mm.resolveModelBySchema acc
        match model with
        | some js =>
          { acc with properties := (aset acc.properties p.1
              (PropDef.mk (some ("object")) (some js.mprops) js.mreq false false)) }
        | none => acc
      else acc
    let s3 := s2.properties.foldl step s2
    match tool_name with
    | some tn =>
      if tn ≠ "" ∧ s3.required.isEmpty then
        match mm.getCreateModel tn with
        | some js => { s3 with required := js.mreq }
        | none => s3
      else s3
    | none => s3

/-- `SchemaExtractor._analyze_schema_structure` (the fields the extraction
path consumes: the shape tag, root key and inner schema). -/
inductive SchemaShape where
  | object_root (root_key : String) (inner : PropDef)
  | flat

def analyzeSchemaStructure (s : Schema) : SchemaShape :=
  match isObjectRoot s with
  | some (r, pd) => .object_root r pd
  | none => .flat

/-- Stable ascending insertion for `sorted(keys)`. -/
def insertStrAsc (x : String) : List String → List String
  | [] => [x]
  | y :: ys => if x < y then x :: y :: ys else y :: insertStrAsc x ys

/-- Python `sorted(·)` on strings. -/
def sortStrings (l : List String) : List String := l.foldr insertStrAsc []

/-- `ValueExtractor.extract_value(text, key, field_schema)` as an oracle; the
field schema argument is the effective `type` string of the merged dict
`{"type": tp or "string", **pdef}` together with the property definition. -/
abbrev Extractor := String → String → String × PropDef → Option JVal

/-- Effective `type` for `{"type": tp or "string", **pdef}` in
`_extract_object_root` (pdef's own `type` key wins when present). -/
def effTypeObjectRoot (pd : PropDef) : String := pd.ptype.getD ("string")

/-- Effective `type` in `_extract_flat_params`: an untyped property with a
`properties` dict or a `$ref` is promoted to `object`. -/
def effTypeFlat (pd : PropDef) : String :=
  match pd.ptype with
  | some t => t
  | none => if pd.pprops.isSome ∨ pd.hasRefKey then ("object") else ("string")

/-- `SchemaExtractor._extract_object_root`. -/
def SchemaExtractor.extract_object_root (ve : Extractor) (root_key : String)
    (inner : PropDef) (text : String) : JDict :=
  let inner_props := inner.pprops.getD []
  let out := (sortStrings (jkeys inner_props)).foldl (fun acc k =>
    let pd := (alookup inner_props k).getD PropDef.empty
    match ve text k (effTypeObjectRoot pd, pd) with
    | some v => jset acc k v
    | none => acc) []
  if out.isEmpty then [] else [(root_key, .obj out)]

/-- `SchemaExtractor._extract_flat_params`. -/
def SchemaExtractor.extract_flat_params (ve : Extractor) (s : Schema)
    (text : String) : JDict :=
  (sortStrings (jkeys s.properties)).foldl (fun acc k =>
    let pd := (alookup s.properties k).getD PropDef.empty
    match ve text k (effTypeFlat pd, pd) with
    | some v => jset acc k v
    | none => acc) []

/-- `SchemaExtractor.extract_arguments`: inline, analyze, then extract either
the nested object-root structure or the flat parameters. -/
def SchemaExtractor.extract_arguments (ve : Extractor) (mm : ModelMapper)
    (s : Schema) (text : String) (tool_name : Option String) : JDict :=
  if text = "" then []
  else
    let inl := ensurePropertiesInlined mm s tool_name
    match analyzeSchemaStructure inl with
    | .object_root root inner => SchemaExtractor.extract_object_root ve root inner text
    | .flat => SchemaExtractor.extract_flat_params ve inl text

/-! ## SemanticSelector index and ranking (`app/agent/core/semantic_selector.py`) -/

/-- The registry of tool definitions (`SemanticRegistry.tools`). -/
structure SemanticRegistry where
  tools : List (String × ToolDefinition)

/-- `SemanticRegistry.get_tool_definition`. -/
def SemanticRegistry.get_tool_definition (r : SemanticRegistry) (n : String) :
    Option ToolDefinition :=
  alookup r.tools n

/-- Mutable selector state touched by indexing and ranking. -/
structure SelectorState where
  tool_embeddings : List (String × List ℚ)
  tool_texts : List (String × String)
  max_candidates : Nat
  initialized : Bool

/-- External embedding/similarity oracles: the Gemini embedding calls
(`none` models an unavailable embedding) and the numpy score
`float(np.dot(q_norm, v_norm))` of the two L2-normalized vectors
(float arithmetic abstracted to a `ℚ`-valued function). -/
structure EmbedOracle where
  embedDoc : String → Option (List ℚ)
  embedQuery : String → Option (List ℚ)
  sim : List ℚ → List ℚ → ℚ

/-- `text_content or f"{description} {example} {category}"` (a `None` category
renders as the string `None` inside the f-string). -/
def toolIndexText (tool : ToolDefinition) : String :=
  let fallback := tool.description ++ (" ") ++ tool.example_ ++ (" ") ++
    (match tool.category with | some c => c | none => ("None"))
  match tool.text_content with
  | some t => if t ≠ "" then t else fallback
  | none => fallback

/-- One iteration of `SemanticSelector.build_index`: re-embed a tool whose
text changed or which has no embedding yet; an empty embedding is falsy and
is discarded. -/
def buildIndexStep (eo : EmbedOracle) (st : SelectorState)
    (nt : String × ToolDefinition) : SelectorState :=
  let text := toolIndexText nt.2
  if (alookup st.tool_embeddings nt.1).isNone ∨ alookup st.tool_texts nt.1 ≠ some text then
    match eo.embedDoc text with
    | some emb =>
      if emb.isEmpty then st
      else
        { st with tool_embeddings := aset st.tool_embeddings nt.1 emb,
                  tool_texts := aset st.tool_texts nt.1 text }
    | none => st
  else st

/-- `SemanticSelector.build_index` (its return count is unused by ranking and
omitted; the cache write is a disk effect outside this state). -/
def SemanticSelector.build_index (eo : EmbedOracle) (st : SelectorState)
    (registry : SemanticRegistry) : SelectorState :=
  if registry.tools.isEmpty then st
  else registry.tools.foldl (buildIndexStep eo) st

/-- `SemanticSelector._populate_texts_from_registry`. -/
def populateTextsFromRegistry (st : SelectorState) (registry : SemanticRegistry) :
    SelectorState :=
  if registry.tools.isEmpty then st
  else
    { st with tool_texts := (registry.tools.foldl
        (fun acc p => aset acc p.1 (toolIndexText p.2)) st.tool_texts) }

/-- Stable insertion into a descending-by-score list (`list.sort(key=score,
reverse=True)` is stable; a new element goes after all elements with a score
`≥` its own). -/
def insertRankedDesc (sorted : List RankedTool) (x : RankedTool) : List RankedTool :=
  match sorted with
  | [] => [x]
  | y :: ys => if y.score < x.score then x :: y :: ys else y :: insertRankedDesc ys x

/-- `ranked.sort(key=lambda x: x.score, reverse=True)`. -/
def sortRankedDesc (l : List RankedTool) : List RankedTool :=
  l.foldl insertRankedDesc []

/-- `SemanticSelector.rank_tools`, main (embedding) path.  `none` is the two
code paths that delegate to `rank_tools_with_fallback` (selector not
initialized, or no query embedding); that delegate immediately re-enters
`rank_tools` and has no base case, so it is not a terminating function and is
kept out of the embedding.  Returns the ranked list and the updated state. -/
def SemanticSelector.rank_tools (eo : EmbedOracle) (st : SelectorState)
    (query : String) (registry : SemanticRegistry) (top_k : Option Nat) :
    Option (List RankedTool × SelectorState) :=
  if query = "" ∨ registry.tools.isEmpty then some ([], st)
  else if st.initialized = false then none
  else
    let st1 := SemanticSelector.build_index eo st registry
    match eo.embedQuery query with
    | none => none
    | some q =>
      let mismatch := st1.tool_embeddings.any (fun p => p.2.length ≠ q.length)
      let st2 :=
        if mismatch then
          let st' := { st1 with tool_embeddings := [], tool_texts := [] }
          SemanticSelector.build_index eo (populateTextsFromRegistry st' registry)
            registry
        else st1
      let ranked := st2.tool_embeddings.foldl (fun acc p =>
        if p.2.length ≠ q.length then acc
        else
          match registry.get_tool_definition p.1 with
          | some tool => acc ++ [RankedTool.mk p.1 (eo.sim q p.2) tool]
          | none => acc) []
      let sorted := sortRankedDesc ranked
      let limit := match top_k with
        | some k => if k = 0 then st.max_candidates else k
        | none => st.max_candidates
      some (sorted.take limit, st2)

/-! ## Semantic index cache (`_save_cache` / `_load_cache`) -/

/-- JSON encoding of the embeddings map, exactly as `json.dump` serializes
`self._tool_embeddings`. -/
def encodeEmbeddings (m : List (String × List ℚ)) : JVal :=
  .obj (m.map (fun p => (p.1, .arr (p.2.map JVal.num))))

/-- JSON encoding of the texts map. -/
def encodeTexts (m : List (String × String)) : JVal :=
  .obj (m.map (fun p => (p.1, .str p.2)))

/-- `SemanticSelector._save_cache`: no write when the path is falsy, else the
full `{"embeddings": ..., "texts": ...}` JSON document. -/
def SemanticSelector.save_cache (cache_path : String)
    (emb : List (String × List ℚ)) (txts : List (String × String)) : Option JVal :=
  if cache_path = "" then none
  else some (.obj [(("embeddings"), encodeEmbeddings emb),
                   (("texts"), encodeTexts txts)])

/-- `SemanticSelector._load_cache` applied to a parsed JSON document:
`data.get("embeddings", {})` and `data.get("texts", {})`; any non-dict
document ends in the exception handler that resets both maps to `{}`. -/
def SemanticSelector.load_cache (data : JVal) : JVal × JVal :=
  match data with
  | .obj d =>
    ((jlookup d ("embeddings")).getD (.obj []), (jlookup d ("texts")).getD (.obj []))
  | _ => (.obj [], .obj [])

def decodeQ : JVal → Option ℚ
  | .num q => some q
  | _ => none

/-- Option-valued `mapM` (explicit recursion, for easy equational reasoning). -/
def omapM (f : α → Option β) : List α → Option (List β)
  | [] => some []
  | x :: xs =>
    match f x with
    | some y => (omapM f xs).map (fun ys => y :: ys)
    | none => none

/-- Read the embeddings map back out of its JSON form. -/
def decodeEmbeddings : JVal → Option (List (String × List ℚ))
  | .obj l => omapM (fun p =>
      match p.2 with
      | .arr xs => (omapM decodeQ xs).map (fun v => (p.1, v))
      | _ => none) l
  | _ => none

/-- Read the texts map back out of its JSON form. -/
def decodeTexts : JVal → Option (List (String × String))
  | .obj l => omapM (fun p =>
      match p.2 with
      | .str s => some (p.1, s)
      | _ => none) l
  | _ => none

/-! ## AgentCore message loop (`app/agent/core/agent_core.py`) -/

/-- `ActionType` of `ReasoningEngine`. -/
inductive ActionType where
  | tool_call | conversation | clarify
deriving DecidableEq, Repr

/-- `ReasoningResult` (the fields `process_message` consumes). -/
structure ReasoningResult where
  action : ActionType
  tool_name : String := ""
  arguments : JDict := []
  reasoning : String := ""
  confidence : ℚ := 0

/-- `AgentResponse` (the wall-clock `execution_time` field is omitted). -/
structure AgentResponse where
  message : String
  action_taken : String
  tool_used : Option String := none
  reasoning : String := ""
  confidence : ℚ := 0
  session_id : String := ""
  metadata : JDict := []

/-- Per-iteration oracles for the awaited sub-steps of `process_message`.
Each may raise (`.error`), covering any internal failure; the memory and
logging calls raise through the same channel when they do. -/
structure AgentStepOracle where
  performReasoning : Nat → Except String ReasoningResult
  executeToolAction : Nat → Except String AgentResponse
  executeAction : ReasoningResult → Except String AgentResponse

/-- Observable outcome of the `while loop_counter < 10` loop: the response (or
the raised error), the final `loop_counter`, and how many times the loop body
ran. -/
structure LoopOutcome where
  result : Except String (Option AgentResponse)
  loop_counter : Nat
  bodies : Nat

/-- The bounded reasoning/act loop of `AgentCore.process_message`: a tool call
increments `loop_counter` and continues; any other action executes once and
breaks; the guard stops at 10. -/
def agentLoop (o : AgentStepOracle) (loop_counter : Nat)
    (response : Option AgentResponse) (bodies : Nat) : LoopOutcome :=
  if _h : loop_counter < 10 then
    match o.performReasoning loop_counter with
    | .error e => ⟨.error e, loop_counter, bodies + 1⟩
    | .ok rr =>
      match rr.action with
      | .tool_call =>
        match o.executeToolAction loop_counter with
        | .error e => ⟨.error e, loop_counter, bodies + 1⟩
        | .ok r => agentLoop o (loop_counter + 1) (some r) (bodies + 1)
      | _ =>
        match o.executeAction rr with
        | .error e => ⟨.error e, loop_counter, bodies + 1⟩
        | .ok r => ⟨.ok (some r), loop_counter, bodies + 1⟩
  else ⟨.ok response, loop_counter, bodies⟩
termination_by 10 - loop_counter
decreasing_by all_goals omega

/-- The response built by the `except Exception` handler of `process_message`. -/
def errorAgentResponse (e : String) (session_id : String) : AgentResponse :=
  { message := ("Lo siento, ocurrió un error procesando tu mensaje: ") ++ e,
    action_taken := ("error"),
    reasoning := ("Error interno del sistema"),
    confidence := 0,
    session_id := session_id,
    metadata := [(("error"), .str e)] }

/-- The fallback response for a `None` loop result. -/
def nullFallbackResponse (session_id : String) : AgentResponse :=
  { message := ("Lo siento, ocurrió un error interno al procesar tu solicitud."),
    action_taken := ("error"),
    reasoning := ("Error interno: respuesta nula del ejecutor de acciones"),
    confidence := 0,
    session_id := session_id }

/-- `AgentCore.process_message`: run the loop under the catch-all handler and
stamp the session id on the way out. -/
def AgentCore.process_message (o : AgentStepOracle) (session_id : String) :
    AgentResponse :=
  match (agentLoop o 0 none 0).result with
  | .error e => errorAgentResponse e session_id
  | .ok resp? =>
    let r := match resp? with
      | none => nullFallbackResponse session_id
      | some r => r
    { r with session_id := session_id }

/-! ## Proofs: MemoryContext (C9) -/

theorem takeLast_length_le (m : Nat) (l : List α) : (takeLast m l).length ≤ m := by
  simp only [takeLast, List.length_drop]
  omega

theorem add_message_takeLast (m : Nat) (hm : 1 ≤ m) (prev : List ConversationMessage)
    (msg : ConversationMessage) :
    MemoryContext.add_message ⟨m, takeLast m prev⟩ msg = ⟨m, takeLast m (prev ++ [msg])⟩ := by
  unfold MemoryContext.add_message pyTailSlice
  by_cases hlen : prev.length < m
  · have h1 : takeLast m prev = prev := by
      simp only [takeLast]
      have : prev.length - m = 0 := by omega
      simp [this]
    have h2 : takeLast m (prev ++ [msg]) = prev ++ [msg] := by
      simp only [takeLast, List.length_append, List.length_cons, List.length_nil]
      have : prev.length + 1 - m = 0 := by omega
      simp [this]
    simp only [h1, h2]
    have hle : ¬ (prev ++ [msg]).length > m := by
      simp only [List.length_append, List.length_cons, List.length_nil]
      omega
    simp only [hle, if_neg, if_false]
  · have hge : m ≤ prev.length := by omega
    have hTL : (takeLast m prev).length = m := by
      simp only [takeLast, List.length_drop]
      omega
    have hgt : (takeLast m prev ++ [msg]).length > m := by
      simp only [List.length_append, hTL, List.length_cons, List.length_nil]
      omega
    simp only [hgt, if_pos, hm, if_neg (by omega : ¬ m = 0)]
    congr 1
    have hlen2 : (takeLast m prev ++ [msg]).length - m = 1 := by
      simp only [List.length_append, hTL, List.length_cons, List.length_nil]
      omega
    rw [hlen2]
    have hdrop : (takeLast m prev ++ [msg]).drop 1 = (takeLast m prev).drop 1 ++ [msg] :=
      List.drop_append_of_le_length (by omega)
    rw [hdrop]
    simp only [takeLast, List.drop_drop, List.length_append, List.length_cons,
      List.length_nil]
    rw [List.drop_append_of_le_length (by omega)]
    congr 2
    omega

theorem addAll_eq_takeLast (m : Nat) (hm : 1 ≤ m) (msgs : List ConversationMessage) :
    addAll m msgs = ⟨m, takeLast m msgs⟩ := by
  induction msgs using List.reverseRecOn with
  | nil => simp [addAll, takeLast]
  | append_singleton l a ih =>
    have : addAll m (l ++ [a]) = MemoryContext.add_message (addAll m l) a := by
      simp [addAll]
    rw [this, ih, add_message_takeLast m hm l a]

/-- C9 (counterexample).  With `max_messages = 0` the trim `self._messages =
self._messages[-self.max_messages:]` is `[-0:]`, which is the whole list, so
after adding one message the stored list has length 1 > `max_messages`: the
claimed invariant "length at most `max_messages` after every `add_message`"
fails. -/
theorem memory_bound_fails_at_zero :
    (addAll 0 [⟨("user"), ("hola"), [], 0⟩]).messages.length = 1 ∧
      ¬ ((addAll 0 [⟨("user"), ("hola"), [], 0⟩]).messages.length ≤
          (addAll 0 [⟨("user"), ("hola"), [], 0⟩]).max_messages) := by
  constructor
  · rfl
  · intro h
    simp only [addAll, List.foldl, MemoryContext.add_message, pyTailSlice] at h
    simp at h

/-- C9 (amended).  For every `max_messages ≥ 1`, after any sequence of
`add_message` calls the stored list is exactly the last `max_messages` added
messages in insertion order, hence has length at most `max_messages`.  (For
`max_messages = 0` the Python slice `[-0:]` keeps the whole list and the bound
fails, see the counterexample.) -/
theorem memory_keeps_most_recent (m : Nat) (hm : 1 ≤ m)
    (msgs : List ConversationMessage) :
    (addAll m msgs).messages = takeLast m msgs ∧
      (addAll m msgs).messages.length ≤ m := by
  rw [addAll_eq_takeLast m hm msgs]
  exact ⟨rfl, takeLast_length_le m msgs⟩

/-- Witness for C9's amended theorem at `max_messages = 2` and three inserts. -/
theorem memory_keeps_most_recent_witness :
    (addAll 2 [⟨("user"), ("a"), [], 0⟩, ⟨("assistant"), ("b"), [], 0⟩,
        ⟨("user"), ("c"), [], 0⟩]).messages
      = takeLast 2 [⟨("user"), ("a"), [], 0⟩, ⟨("assistant"), ("b"), [], 0⟩,
        ⟨("user"), ("c"), [], 0⟩] ∧
    (addAll 2 [⟨("user"), ("a"), [], 0⟩, ⟨("assistant"), ("b"), [], 0⟩,
        ⟨("user"), ("c"), [], 0⟩]).messages.length ≤ 2 :=
  memory_keeps_most_recent 2 (by decide) _

/-! ## Proofs: SemanticSelector.decide (C2) -/

/-- `ranked[1].score if len(ranked) > 1 else 0.0`. -/
def secondScore (rest : List RankedTool) : ℚ :=
  match rest with
  | [] => 0
  | s :: _ => s.score

/-- A throwaway tool definition for concrete inputs. -/
def sampleTool : ToolDefinition :=
  ⟨("get_aviones"), ("Lista aviones"), ("listar aviones"), some ("aviones"),
    some ("get_aviones Lista aviones")⟩

/-- C2 (counterexample).  With the shipped default thresholds, a best candidate
scoring 0.8 (≥ `direct_threshold` = 0.7) next to a second candidate scoring
0.75 yields the decision `conversation`, not the claimed `direct`: the decision
also requires the best-to-second score gap (here 0.05) to reach
`min_score_gap_direct` (0.15) or `min_score_gap_confirm` (0.10), so it is not
purely a threshold test on the best score. -/
theorem decide_not_purely_threshold :
    (SemanticSelector.decide defaultThresholds
        [⟨("get_aviones"), 4/5, sampleTool⟩, ⟨("get_pagos"), 3/4, sampleTool⟩]).1
      = ("conversation") ∧
    defaultThresholds.direct_threshold ≤ 4/5 := by
  constructor
  · show (if (4/5 : ℚ) < defaultThresholds.confirm_threshold then ("conversation")
      else if defaultThresholds.direct_threshold ≤ (4/5 : ℚ) ∧
          defaultThresholds.min_score_gap_direct ≤ (4/5 : ℚ) - 3/4 then ("direct")
      else if defaultThresholds.confirm_threshold ≤ (4/5 : ℚ) ∧
          defaultThresholds.min_score_gap_confirm ≤ (4/5 : ℚ) - 3/4 then ("confirm")
      else ("conversation")) = ("conversation")
    norm_num [defaultThresholds]
  · norm_num [defaultThresholds]

/-- C2 (amended).  `SemanticSelector.decide` is threshold-and-separation
based: an empty ranking gives `conversation`; otherwise, with `gap` the best
score minus the second score (0 when there is a single candidate): below
`confirm_threshold` the decision is `conversation`; `direct` requires both
`best ≥ direct_threshold` and `gap ≥ min_score_gap_direct`; failing that,
`confirm` requires `gap ≥ min_score_gap_confirm`; otherwise `conversation`.
The best candidate is always returned alongside. -/
theorem decide_threshold_and_gap (th : SelectorThresholds) (best : RankedTool)
    (rest : List RankedTool) :
    SemanticSelector.decide th [] = (("conversation"), none) ∧
    (best.score < th.confirm_threshold →
      SemanticSelector.decide th (best :: rest) = (("conversation"), some best)) ∧
    (th.direct_threshold ≤ best.score →
      th.min_score_gap_direct ≤ best.score - secondScore rest →
      ¬ best.score < th.confirm_threshold →
      SemanticSelector.decide th (best :: rest) = (("direct"), some best)) ∧
    (th.confirm_threshold ≤ best.score →
      ¬ (th.direct_threshold ≤ best.score ∧
          th.min_score_gap_direct ≤ best.score - secondScore rest) →
      th.min_score_gap_confirm ≤ best.score - secondScore rest →
      SemanticSelector.decide th (best :: rest) = (("confirm"), some best)) ∧
    (th.confirm_threshold ≤ best.score →
      ¬ (th.direct_threshold ≤ best.score ∧
          th.min_score_gap_direct ≤ best.score - secondScore rest) →
      ¬ th.min_score_gap_confirm ≤ best.score - secondScore rest →
      SemanticSelector.decide th (best :: rest) = (("conversation"), some best)) := by
  have hsec : (match rest with | [] => (0 : ℚ) | s :: _ => s.score) = secondScore rest := by
    cases rest <;> rfl
  refine ⟨rfl, ?_, ?_, ?_, ?_⟩
  · intro h
    simp only [SemanticSelector.decide, hsec, if_pos h]
  · intro hd hg hc
    simp only [SemanticSelector.decide, hsec, if_neg hc, if_pos (⟨hd, hg⟩ :
      th.direct_threshold ≤ best.score ∧
        th.min_score_gap_direct ≤ best.score - secondScore rest)]
  · intro hcle hnd hg
    have hc : ¬ best.score < th.confirm_threshold := not_lt.mpr hcle
    simp only [SemanticSelector.decide, hsec, if_neg hc, if_neg hnd,
      if_pos (⟨hcle, hg⟩ : th.confirm_threshold ≤ best.score ∧
        th.min_score_gap_confirm ≤ best.score - secondScore rest)]
  · intro hcle hnd hng
    have hc : ¬ best.score < th.confirm_threshold := not_lt.mpr hcle
    have hnc : ¬ (th.confirm_threshold ≤ best.score ∧
        th.min_score_gap_confirm ≤ best.score - secondScore rest) := by
      intro hpair
      exact hng hpair.2
    simp only [SemanticSelector.decide, hsec, if_neg hc, if_neg hnd, if_neg hnc]

/-- Witness for C2's amended theorem: a lone candidate scoring 0.9 is routed
`direct` under the default thresholds. -/
theorem decide_threshold_and_gap_witness :
    SemanticSelector.decide defaultThresholds [⟨("get_aviones"), 9/10, sampleTool⟩]
      = (("direct"), some ⟨("get_aviones"), 9/10, sampleTool⟩) :=
  (decide_threshold_and_gap defaultThresholds ⟨("get_aviones"), 9/10, sampleTool⟩
      []).2.2.1
    (by norm_num [defaultThresholds]) (by norm_num [defaultThresholds, secondScore])
    (by norm_num [defaultThresholds])

/-! ## Proofs: AgentCore.process_message loop (C1, C10) -/

/-- A loop result carries a response: either it is a raised error (handled by
the caller's catch-all), or the `Option AgentResponse` is `some`. -/
def respProduced : Except String (Option AgentResponse) → Prop
  | .ok v => v.isSome = true
  | .error _ => True

theorem agentLoop_spec (o : AgentStepOracle) :
    ∀ n counter resp bodies, 10 - counter = n →
      (agentLoop o counter resp bodies).bodies ≤ bodies + n ∧
      (agentLoop o counter resp bodies).loop_counter ≤ counter + n ∧
      (counter < 10 ∨ resp.isSome = true →
        respProduced (agentLoop o counter resp bodies).result) := by
  intro n
  induction n with
  | zero =>
    intro counter resp bodies hn
    have hge : ¬ counter < 10 := by omega
    unfold agentLoop
    rw [dif_neg hge]
    refine ⟨by dsimp only; omega, by dsimp only; omega, ?_⟩
    intro hor
    rcases hor with hlt | hsome
    · exact absurd hlt hge
    · simpa [respProduced] using hsome
  | succ n ih =>
    intro counter resp bodies hn
    have hlt : counter < 10 := by omega
    unfold agentLoop
    rw [dif_pos hlt]
    cases hr : o.performReasoning counter with
    | error e =>
      dsimp only
      exact ⟨by omega, by omega, fun _ => trivial⟩
    | ok rr =>
      dsimp only
      cases hra : rr.action with
      | tool_call =>
        dsimp only
        cases ht : o.executeToolAction counter with
        | error e =>
          dsimp only
          exact ⟨by omega, by omega, fun _ => trivial⟩
        | ok r =>
          dsimp only
          have := ih (counter + 1) (some r) (bodies + 1) (by omega)
          exact ⟨by omega, by omega, fun _ => this.2.2 (Or.inr rfl)⟩
      | conversation =>
        dsimp only
        cases ha : o.executeAction rr with
        | error e =>
          dsimp only
          exact ⟨by omega, by omega, fun _ => trivial⟩
        | ok r =>
          dsimp only
          exact ⟨by omega, by omega, fun _ => rfl⟩
      | clarify =>
        dsimp only
        cases ha : o.executeAction rr with
        | error e =>
          dsimp only
          exact ⟨by omega, by omega, fun _ => trivial⟩
        | ok r =>
          dsimp only
          exact ⟨by omega, by omega, fun _ => rfl⟩

/-- C1.  For every behaviour of the reasoning engine, tool executor and action
executor, the `while loop_counter < 10` loop of `AgentCore.process_message`
runs its body at most 10 times, the iteration counter never exceeds 10, and the
loop hands back a response (or a raised error for the catch-all handler) —
never falls through without one. -/
theorem process_loop_at_most_ten (o : AgentStepOracle) :
    (agentLoop o 0 none 0).bodies ≤ 10 ∧
    (agentLoop o 0 none 0).loop_counter ≤ 10 ∧
    respProduced (agentLoop o 0 none 0).result := by
  have h := agentLoop_spec o 10 0 none 0 (by omega)
  exact ⟨h.1, h.2.1, h.2.2 (Or.inl (by omega))⟩

/-- C10.  Whenever any internal step of `process_message` raises, the catch-all
handler turns it into a returned `AgentResponse` with `action_taken = "error"`,
`confidence = 0.0` and the error text recorded under `metadata["error"]`; the
embedding is a total function, so no exception escapes to the caller. -/
theorem process_message_error_shape (o : AgentStepOracle) (session_id e : String)
    (h : (agentLoop o 0 none 0).result = .error e) :
    (AgentCore.process_message o session_id).action_taken = ("error") ∧
    (AgentCore.process_message o session_id).confidence = 0 ∧
    jlookup (AgentCore.process_message o session_id).metadata ("error")
      = some (.str e) := by
  unfold AgentCore.process_message
  rw [h]
  refine ⟨rfl, rfl, ?_⟩
  simp [errorAgentResponse, jlookup]

/-- An oracle whose very first reasoning step raises. -/
def failingStepOracle : AgentStepOracle :=
  ⟨fun _ => .error ("boom"), fun _ => .error ("boom"), fun _ => .error ("boom")⟩

/-- Witness for C10 with a reasoning step that raises immediately. -/
theorem process_message_error_shape_witness :
    (AgentCore.process_message failingStepOracle ("s1")).action_taken = ("error") ∧
    (AgentCore.process_message failingStepOracle ("s1")).confidence = 0 ∧
    jlookup (AgentCore.process_message failingStepOracle ("s1")).metadata ("error")
      = some (.str ("boom")) :=
  process_message_error_shape failingStepOracle ("s1") ("boom")
    (by simp [agentLoop, failingStepOracle])

/-! ## Proofs: semantic index cache (C8) -/

theorem omapM_decodeQ_num (v : List ℚ) : omapM decodeQ (v.map JVal.num) = some v := by
  induction v with
  | nil => rfl
  | cons q qs ih => simp [omapM, ih, decodeQ]

theorem decode_encode_embeddings (emb : List (String × List ℚ)) :
    decodeEmbeddings (encodeEmbeddings emb) = some emb := by
  show omapM _ (emb.map (fun p => (p.1, JVal.arr (p.2.map JVal.num)))) = some emb
  induction emb with
  | nil => rfl
  | cons p ps ih => simp [omapM, omapM_decodeQ_num, ih]

theorem decode_encode_texts (txts : List (String × String)) :
    decodeTexts (encodeTexts txts) = some txts := by
  show omapM _ (txts.map (fun p => (p.1, JVal.str p.2))) = some txts
  induction txts with
  | nil => rfl
  | cons p ps ih => simp [omapM, ih]

/-- C8.  `_save_cache` writes the *entire* embeddings and texts maps (no
eviction) as one JSON document whenever the cache path is set, and `_load_cache`
on that document restores exactly the same two maps: the decode of each loaded
field is the original map, entry for entry. -/
theorem cache_save_load_roundtrip (path : String) (emb : List (String × List ℚ))
    (txts : List (String × String)) (hp : path ≠ "") :
    SemanticSelector.save_cache path emb txts
      = some (.obj [(("embeddings"), encodeEmbeddings emb),
          (("texts"), encodeTexts txts)]) ∧
    SemanticSelector.load_cache (.obj [(("embeddings"), encodeEmbeddings emb),
        (("texts"), encodeTexts txts)])
      = (encodeEmbeddings emb, encodeTexts txts) ∧
    decodeEmbeddings (encodeEmbeddings emb) = some emb ∧
    decodeTexts (encodeTexts txts) = some txts := by
  refine ⟨?_, ?_, decode_encode_embeddings emb, decode_encode_texts txts⟩
  · unfold SemanticSelector.save_cache
    rw [if_neg hp]
  · rfl

/-- Witness for C8 at a one-tool cache. -/
theorem cache_save_load_roundtrip_witness :
    SemanticSelector.save_cache ("AgenteIA/app/cache/semantic_index.json")
        [(("get_aviones"), [1, 1/2])] [(("get_aviones"), ("Lista aviones"))]
      = some (.obj [(("embeddings"), encodeEmbeddings [(("get_aviones"), [1, 1/2])]),
          (("texts"), encodeTexts [(("get_aviones"), ("Lista aviones"))])]) ∧
    SemanticSelector.load_cache
        (.obj [(("embeddings"), encodeEmbeddings [(("get_aviones"), [1, 1/2])]),
          (("texts"), encodeTexts [(("get_aviones"), ("Lista aviones"))])])
      = (encodeEmbeddings [(("get_aviones"), [1, 1/2])],
          encodeTexts [(("get_aviones"), ("Lista aviones"))]) ∧
    decodeEmbeddings (encodeEmbeddings [(("get_aviones"), [1, 1/2])])
      = some [(("get_aviones"), [1, 1/2])] ∧
    decodeTexts (encodeTexts [(("get_aviones"), ("Lista aviones"))])
      = some [(("get_aviones"), ("Lista aviones"))] :=
  cache_save_load_roundtrip ("AgenteIA/app/cache/semantic_index.json")
    [(("get_aviones"), [1, 1/2])] [(("get_aviones"), ("Lista aviones"))] (by decide)

/-! ## Proofs: retry backoff (C4) -/

theorem executeAttempts_raise_sleeps (tm : ToolManager) (po : PyOracle)
    (tool : String) (args : JDict) (es : Nat → String) :
    ∀ k rc lastE calls sleeps, tm.max_retries - rc = k → rc ≤ tm.max_retries →
      (executeAttempts tm po (fun j => .raise (es j)) tool args rc lastE calls
          sleeps).sleeps
        = sleeps ++ (List.range' (rc + 1) (tm.max_retries - rc) 1).map
            (fun j : Nat => (1/2 : ℚ) * (j : ℚ)) := by
  intro k
  induction k with
  | zero =>
    intro rc lastE calls sleeps hk hle
    have hmax : tm.max_retries ≤ rc := by omega
    unfold executeAttempts
    rw [dif_pos hle]
    dsimp only
    rw [if_pos hmax]
    have h0 : tm.max_retries - rc = 0 := by omega
    rw [h0]
    simp
  | succ k ih =>
    intro rc lastE calls sleeps hk hle
    have hlt : ¬ tm.max_retries ≤ rc := by omega
    unfold executeAttempts
    rw [dif_pos hle]
    dsimp only
    rw [if_neg hlt]
    rw [ih (rc + 1) (some (es rc)) (calls + 1)
      (sleeps ++ [(1/2 : ℚ) * ((rc : ℚ) + 1)]) (by omega) (by omega)]
    have hn : tm.max_retries - rc = (tm.max_retries - (rc + 1)) + 1 := by omega
    rw [hn, List.range'_succ]
    simp only [List.map_cons, List.append_assoc, List.cons_append, List.nil_append]
    congr 2
    push_cast
    ring

theorem execute_tool_raise_sleeps (tm : ToolManager) (po : PyOracle)
    (tool : String) (args : JDict) (es : Nat → String)
    (hreg : tool ∈ tm.registered_tools)
    (hsch : alookup tm.tool_schemas tool = none) :
    (ToolManager.execute_tool tm po (fun j => .raise (es j)) tool args).sleeps
      = (List.range tm.max_retries).map (fun k : Nat => (1/2 : ℚ) * ((k : ℚ) + 1)) := by
  unfold ToolManager.execute_tool
  rw [if_neg (by simp [hreg])]
  simp only [hsch, Option.getD_none]
  have hval : (if tm.enable_validation = true then
      ToolManager.validate_arguments tm.tool_schemas tool
        (ToolManager.normalize_arguments ⟨[], []⟩ args)
    else none) = none := by
    cases tm.enable_validation
    · simp
    · simp [ToolManager.validate_arguments, hsch]
  rw [hval]
  rw [executeAttempts_raise_sleeps tm po tool _ es tm.max_retries 0 none 0 []
    (by omega) (by omega)]
  rw [List.nil_append, Nat.sub_zero, List.range'_eq_map_range]
  simp only [List.map_map]
  refine List.map_congr_left ?_
  intro a _
  simp only [Function.comp_apply]
  push_cast
  ring

theorem mcp_get_tools_fail_sleeps (es : Nat → String) :
    (MCPClient.get_available_tools (fun k => .error (es k))).2
      = (List.range 2).map (fun k : Nat => (2 : ℚ) * 2 ^ k) := by
  unfold MCPClient.get_available_tools
  unfold mcpAttemptLoop
  norm_num
  unfold mcpAttemptLoop
  norm_num
  unfold mcpAttemptLoop
  norm_num [List.range_succ]

/-- Concrete manager for the backoff counterexample: `max_retries = 3`, one
registered tool with no schema. -/
def tmRetryThree : ToolManager :=
  { max_retries := 3, registered_tools := [("get_aviones")], tool_schemas := [] }

/-- Trivial external oracles (never consulted on these paths). -/
def poTrivial : PyOracle := ⟨fun _ => "", fun _ => none⟩

/-- C4 (counterexample).  `ToolManager.execute_tool` with `max_retries = 3` and
an always-raising handler sleeps `[0.5, 1.0, 1.5]` — the code runs
`asyncio.sleep(0.5 * retry_count)`, a *linear* backoff (despite its
"exponencial" comment).  The first delay forces the claimed base to 0.5, and
`0.5 * 2**1 = 1.0` still matches, but the sleep after the third failed attempt
(k = 2) is 1.5 while the claim requires `0.5 * 2**2 = 2.0`, so the claimed
exponential law fails for every fixed base. -/
theorem tool_manager_backoff_linear_counterexample :
    (ToolManager.execute_tool tmRetryThree poTrivial (fun _ => .raise ("boom"))
        ("get_aviones") []).sleeps = [1/2, 1, 3/2] ∧
    (1/2 : ℚ) * 2 ^ 1 = 1 ∧ ¬ ((1/2 : ℚ) * 2 ^ 2 = 3/2) := by
  refine ⟨?_, by norm_num, by norm_num⟩
  rw [execute_tool_raise_sleeps tmRetryThree poTrivial ("get_aviones") []
    (fun _ => ("boom")) (by decide) rfl]
  norm_num [tmRetryThree, List.range_succ]

/-- C4 (amended).  The two retry loops use different backoff laws: on every
failed attempt `k` (0-based), `ToolManager.execute_tool` sleeps the *linear*
delay `0.5 * (k + 1)` seconds, while `MCPClient.get_available_tools` sleeps the
exponential delay `2 * 2**k` seconds. -/
theorem retry_backoff_shapes (tm : ToolManager) (po : PyOracle) (tool : String)
    (args : JDict) (es es2 : Nat → String)
    (hreg : tool ∈ tm.registered_tools)
    (hsch : alookup tm.tool_schemas tool = none) :
    (ToolManager.execute_tool tm po (fun j => .raise (es j)) tool args).sleeps
      = (List.range tm.max_retries).map (fun k : Nat => (1/2 : ℚ) * ((k : ℚ) + 1)) ∧
    (MCPClient.get_available_tools (fun k => .error (es2 k))).2
      = (List.range 2).map (fun k : Nat => (2 : ℚ) * 2 ^ k) :=
  ⟨execute_tool_raise_sleeps tm po tool args es hreg hsch,
    mcp_get_tools_fail_sleeps es2⟩

/-- Witness for C4's amended theorem on the concrete three-retry manager. -/
theorem retry_backoff_shapes_witness :
    (ToolManager.execute_tool tmRetryThree poTrivial (fun _ => .raise ("boom"))
        ("get_aviones") []).sleeps
      = (List.range tmRetryThree.max_retries).map
          (fun k : Nat => (1/2 : ℚ) * ((k : ℚ) + 1)) ∧
    (MCPClient.get_available_tools (fun _ => .error ("conn"))).2
      = (List.range 2).map (fun k : Nat => (2 : ℚ) * 2 ^ k) :=
  retry_backoff_shapes tmRetryThree poTrivial ("get_aviones") []
    (fun _ => ("boom")) (fun _ => ("conn")) (by decide) rfl

/-! ## Proofs: execute_tool rejection paths (C3) -/

/-- The names `_validate_arguments` requires: the inner `required` list for an
object-root schema, the top-level `required` list otherwise. -/
def requiredFieldNames (s : Schema) : List String :=
  match isObjectRoot s with
  | some (_, pd) => pd.preq
  | none => s.required

/-- Field `f` is absent from the arguments, read the way the validator reads
them: inside the root object for an object-root schema (a missing or non-dict
root carries no fields), at top level otherwise. -/
def fieldAbsent (s : Schema) (args : JDict) (f : String) : Bool :=
  match isObjectRoot s with
  | some (r, _) =>
    match jlookup args r with
    | some (.obj rv) => (jlookup rv f).isNone
    | some _ => true
    | none => true
  | none => (jlookup args f).isNone

theorem validate_fails_on_missing (schemas : List (String × Schema))
    (tool_name : String) (s : Schema) (args : JDict) (f : String)
    (hs : alookup schemas tool_name = some s)
    (hf : f ∈ requiredFieldNames s)
    (ha : fieldAbsent s args f = true) :
    ∃ msg, ToolManager.validate_arguments schemas tool_name args = some msg := by
  unfold ToolManager.validate_arguments
  rw [hs]
  dsimp only
  unfold requiredFieldNames at hf
  unfold fieldAbsent at ha
  cases hio : isObjectRoot s with
  | none =>
    rw [hio] at hf ha
    dsimp only at hf ha ⊢
    have hmem : f ∈ s.required.filter (fun r => (jlookup args r).isNone) :=
      List.mem_filter.mpr ⟨hf, ha⟩
    have hne : ¬ (s.required.filter (fun r => (jlookup args r).isNone)).isEmpty = true := by
      rw [List.isEmpty_eq_false.mpr (List.ne_nil_of_mem hmem)]
      simp
    rw [if_pos hne]
    exact ⟨_, rfl⟩
  | some rp =>
    obtain ⟨root, inner⟩ := rp
    rw [hio] at hf ha
    dsimp only at hf ha ⊢
    cases hroot : jlookup args root with
    | none =>
      rw [hroot] at ha
      simp only [Option.getD_none]
      have hmem : f ∈ inner.preq.filter (fun g => (jlookup ([] : JDict) g).isNone) :=
        List.mem_filter.mpr ⟨hf, rfl⟩
      have hne : ¬ (inner.preq.filter
          (fun g => (jlookup ([] : JDict) g).isNone)).isEmpty = true := by
        rw [List.isEmpty_eq_false.mpr (List.ne_nil_of_mem hmem)]
        simp
      rw [if_pos hne]
      exact ⟨_, rfl⟩
    | some v =>
      rw [hroot] at ha
      simp only [Option.getD_some]
      cases v with
      | obj rv =>
        dsimp only at ha ⊢
        have hmem : f ∈ inner.preq.filter (fun g => (jlookup rv g).isNone) :=
          List.mem_filter.mpr ⟨hf, ha⟩
        have hne : ¬ (inner.preq.filter
            (fun g => (jlookup rv g).isNone)).isEmpty = true := by
          rw [List.isEmpty_eq_false.mpr (List.ne_nil_of_mem hmem)]
          simp
        rw [if_pos hne]
        exact ⟨_, rfl⟩
      | null => exact ⟨_, rfl⟩
      | bool b => exact ⟨_, rfl⟩
      | int n => exact ⟨_, rfl⟩
      | num q => exact ⟨_, rfl⟩
      | str t => exact ⟨_, rfl⟩
      | arr l => exact ⟨_, rfl⟩

/-- C3.  `ToolManager.execute_tool` returns `NOT_FOUND` without a single
handler invocation when the tool name is not registered; and with validation
enabled and a registered schema missing some required field (the inner
required field for an object-root schema) in the normalized arguments, it
returns `VALIDATION_ERROR`, again without invoking the handler. -/
theorem execute_tool_rejects_before_handler (tm : ToolManager) (po : PyOracle)
    (handler : Nat → HandlerOutcome) (tool_name : String) (arguments : JDict) :
    (tool_name ∉ tm.registered_tools →
      (ToolManager.execute_tool tm po handler tool_name arguments).res.status
          = .not_found ∧
      (ToolManager.execute_tool tm po handler tool_name arguments).handlerCalls
          = 0) ∧
    (∀ s f, tool_name ∈ tm.registered_tools → tm.enable_validation = true →
      alookup tm.tool_schemas tool_name = some s →
      f ∈ requiredFieldNames s →
      fieldAbsent s (ToolManager.normalize_arguments s arguments) f = true →
      (ToolManager.execute_tool tm po handler tool_name arguments).res.status
          = .validation_error ∧
      (ToolManager.execute_tool tm po handler tool_name arguments).handlerCalls
          = 0) := by
  constructor
  · intro hni
    unfold ToolManager.execute_tool
    rw [if_pos hni]
    exact ⟨rfl, rfl⟩
  · intro s f hmem hv hs hf ha
    unfold ToolManager.execute_tool
    rw [if_neg (by simp [hmem])]
    simp only [hs, Option.getD_some]
    rw [if_pos hv]
    obtain ⟨msg, hmsg⟩ :=
      validate_fails_on_missing tm.tool_schemas tool_name s
        (ToolManager.normalize_arguments s arguments) f hs hf ha
    rw [hmsg]
    exact ⟨rfl, rfl⟩

/-- A concrete object-root schema: `crear_avion` takes a required root object
`datos` with a required inner field `modelo`. -/
def crearAvionSchema : Schema :=
  ⟨[("datos")],
    [(("datos"), PropDef.mk (some ("object"))
        (some [(("modelo"), PropDef.mk (some ("string")) none [] false false)])
        [("modelo")] false false)]⟩

/-- A concrete manager registering only `crear_avion`. -/
def tmCrearAvion : ToolManager :=
  { registered_tools := [("crear_avion")],
    tool_schemas := [(("crear_avion"), crearAvionSchema)] }

/-- Witness for C3: an unregistered name and an empty argument dict for an
object-root schema whose inner field is required. -/
theorem execute_tool_rejects_before_handler_witness :
    ((ToolManager.execute_tool tmCrearAvion poTrivial (fun _ => .ok .null)
        ("borrar_avion") []).res.status = .not_found ∧
      (ToolManager.execute_tool tmCrearAvion poTrivial (fun _ => .ok .null)
        ("borrar_avion") []).handlerCalls = 0) ∧
    ((ToolManager.execute_tool tmCrearAvion poTrivial (fun _ => .ok .null)
        ("crear_avion") []).res.status = .validation_error ∧
      (ToolManager.execute_tool tmCrearAvion poTrivial (fun _ => .ok .null)
        ("crear_avion") []).handlerCalls = 0) :=
  ⟨(execute_tool_rejects_before_handler tmCrearAvion poTrivial (fun _ => .ok .null)
      ("borrar_avion") []).1 (by decide),
    (execute_tool_rejects_before_handler tmCrearAvion poTrivial (fun _ => .ok .null)
      ("crear_avion") []).2 crearAvionSchema ("modelo") (by decide) rfl rfl
      (by decide) (by decide)⟩

/-! ## Proofs: normalize_arguments (C7) -/

theorem jkeys_jset_eq (d : JDict) (k : String) (v : JVal) :
    jkeys (jset d k v)
      = if d.any (fun p => p.1 == k) then jkeys d else jkeys d ++ [k] := by
  unfold jset jkeys
  split
  · rw [List.map_map]
    refine List.map_congr_left ?_
    intro p _
    by_cases hp : p.1 = k
    · simp [hp]
    · simp [hp]
  · simp

theorem jset_keys_sub (d : JDict) (k : String) (v : JVal) (a : String)
    (h : a ∈ jkeys (jset d k v)) : a ∈ jkeys d ∨ a = k := by
  rw [jkeys_jset_eq] at h
  split at h
  · exact Or.inl h
  · rcases List.mem_append.mp h with h1 | h2
    · exact Or.inl h1
    · exact Or.inr (List.mem_singleton.mp h2)

theorem jset_keys_mono (d : JDict) (k : String) (v : JVal) (a : String)
    (h : a ∈ jkeys d) : a ∈ jkeys (jset d k v) := by
  rw [jkeys_jset_eq]
  split
  · exact h
  · exact List.mem_append.mpr (Or.inl h)

theorem jset_keys_self (d : JDict) (k : String) (v : JVal) :
    k ∈ jkeys (jset d k v) := by
  rw [jkeys_jset_eq]
  split
  · next hany =>
    obtain ⟨p, hp, hbeq⟩ := List.any_eq_true.mp hany
    exact (eq_of_beq hbeq) ▸ List.mem_map.mpr ⟨p, hp, rfl⟩
  · exact List.mem_append.mpr (Or.inr (List.mem_singleton.mpr rfl))

theorem jlookup_isSome_mem_keys (d : JDict) (k : String)
    (h : (jlookup d k).isSome = true) : k ∈ jkeys d := by
  unfold jlookup at h
  cases hf : d.find? (fun p => p.1 == k) with
  | none => rw [hf] at h; simp at h
  | some p =>
    have hmem := List.mem_of_find?_eq_some hf
    have hbeq := List.find?_some hf
    exact (eq_of_beq hbeq) ▸ List.mem_map.mpr ⟨p, hmem, rfl⟩

theorem keys_foldl_sub (step : JDict → String → JDict)
    (hstep : ∀ c k a, a ∈ jkeys (step c k) → a ∈ jkeys c ∨ a = k) :
    ∀ (ks : List String) (acc : JDict) (a : String),
      a ∈ jkeys (ks.foldl step acc) → a ∈ jkeys acc ∨ a ∈ ks := by
  intro ks
  induction ks with
  | nil => exact fun acc a h => Or.inl h
  | cons x xs ih =>
    intro acc a h
    rcases ih (step acc x) a h with h1 | h2
    · rcases hstep acc x a h1 with h3 | h4
      · exact Or.inl h3
      · exact Or.inr (h4 ▸ List.mem_cons_self x xs)
    · exact Or.inr (List.mem_cons_of_mem x h2)

theorem keys_foldl_mono (step : JDict → String → JDict)
    (hstep : ∀ c k a, a ∈ jkeys c → a ∈ jkeys (step c k)) :
    ∀ (ks : List String) (acc : JDict) (a : String),
      a ∈ jkeys acc → a ∈ jkeys (ks.foldl step acc) := by
  intro ks
  induction ks with
  | nil => exact fun acc a h => h
  | cons x xs ih => exact fun acc a h => ih (step acc x) a (hstep acc x a h)

theorem keys_foldl_reaches (step : JDict → String → JDict)
    (hmono : ∀ c k a, a ∈ jkeys c → a ∈ jkeys (step c k))
    (P : String → Prop) (hself : ∀ c k, P k → k ∈ jkeys (step c k)) :
    ∀ (ks : List String) (acc : JDict) (k : String),
      k ∈ ks → P k → k ∈ jkeys (ks.foldl step acc) := by
  intro ks
  induction ks with
  | nil => intro acc k h; exact absurd h (List.not_mem_nil k)
  | cons x xs ih =>
    intro acc k hk hp
    rcases List.mem_cons.mp hk with heq | htl
    · subst heq
      exact keys_foldl_mono step hmono xs (step acc k) k (hself acc k hp)
    · exact ih (step acc x) k htl hp

theorem collectInnerArgs_keys_sub (req : List String)
    (props : List (String × PropDef)) (args : JDict) (k : String)
    (h : k ∈ jkeys (collectInnerArgs req props args)) :
    k ∈ req ∨ k ∈ jkeys props := by
  unfold collectInnerArgs at h
  dsimp only at h
  have hstep2 : ∀ (c : JDict) (kk : String) (a : String),
      a ∈ jkeys ((fun c kk =>
        if (jlookup c kk).isSome then c
        else
          match firstVariantHit (key_variants kk) (flatLower (jkeys args)) with
          | some orig => jset c kk ((jlookup args orig).getD .null)
          | none => c) c kk) → a ∈ jkeys c ∨ a = kk := by
    intro c kk a ha
    dsimp only at ha
    split at ha
    · exact Or.inl ha
    · split at ha
      · exact jset_keys_sub _ _ _ _ ha
      · exact Or.inl ha
  have hstep1 : ∀ (c : JDict) (kk : String) (a : String),
      a ∈ jkeys ((fun c kk =>
        match firstVariantHit (key_variants kk) (flatLower (jkeys args)) with
        | some orig => jset c kk ((jlookup args orig).getD .null)
        | none => c) c kk) → a ∈ jkeys c ∨ a = kk := by
    intro c kk a ha
    dsimp only at ha
    split at ha
    · exact jset_keys_sub _ _ _ _ ha
    · exact Or.inl ha
  rcases keys_foldl_sub _ hstep2 (jkeys props) _ k h with h1 | h2
  · rcases keys_foldl_sub _ hstep1 req [] k h1 with h3 | h4
    · exact absurd h3 (List.not_mem_nil k)
    · exact Or.inl h4
  · exact Or.inr h2

theorem collectInnerArgs_keys_complete (req : List String)
    (props : List (String × PropDef)) (args : JDict) (k : String)
    (hk : k ∈ req ∨ k ∈ jkeys props)
    (hhit : (firstVariantHit (key_variants k) (flatLower (jkeys args))).isSome
      = true) :
    k ∈ jkeys (collectInnerArgs req props args) := by
  obtain ⟨orig, horig⟩ := Option.isSome_iff_exists.mp hhit
  unfold collectInnerArgs
  dsimp only
  have hmono1 : ∀ (c : JDict) (kk : String) (a : String), a ∈ jkeys c →
      a ∈ jkeys ((fun c kk =>
        match firstVariantHit (key_variants kk) (flatLower (jkeys args)) with
        | some orig => jset c kk ((jlookup args orig).getD .null)
        | none => c) c kk) := by
    intro c kk a ha
    dsimp only
    split
    · exact jset_keys_mono _ _ _ _ ha
    · exact ha
  have hmono2 : ∀ (c : JDict) (kk : String) (a : String), a ∈ jkeys c →
      a ∈ jkeys ((fun c kk =>
        if (jlookup c kk).isSome then c
        else
          match firstVariantHit (key_variants kk) (flatLower (jkeys args)) with
          | some orig => jset c kk ((jlookup args orig).getD .null)
          | none => c) c kk) := by
    intro c kk a ha
    dsimp only
    split
    · exact ha
    · split
      · exact jset_keys_mono _ _ _ _ ha
      · exact ha
  rcases hk with hreq | hprops
  · refine keys_foldl_mono _ hmono2 (jkeys props) _ k ?_
    refine keys_foldl_reaches _ hmono1
      (fun g => (firstVariantHit (key_variants g) (flatLower (jkeys args))).isSome
        = true) ?_ req [] k hreq hhit
    intro c kk hp
    dsimp only
    obtain ⟨o, ho⟩ := Option.isSome_iff_exists.mp hp
    rw [ho]
    exact jset_keys_self _ _ _
  · refine keys_foldl_reaches _ hmono2
      (fun g => (firstVariantHit (key_variants g) (flatLower (jkeys args))).isSome
        = true) ?_ (jkeys props) _ k hprops hhit
    intro c kk hp
    dsimp only
    split
    · next hsome => exact jlookup_isSome_mem_keys c kk hsome
    · obtain ⟨o, ho⟩ := Option.isSome_iff_exists.mp hp
      rw [ho]
      exact jset_keys_self _ _ _

theorem isObjectRoot_elim (s : Schema) (root : String) (pd : PropDef)
    (h : isObjectRoot s = some (root, pd)) :
    s.required = [root] ∧ alookup s.properties root = some pd ∧
      pd.ptype = some ("object") := by
  unfold isObjectRoot at h
  cases hreq : s.required with
  | nil => rw [hreq] at h; exact absurd h (by simp)
  | cons r rest =>
    cases rest with
    | cons r2 rs => rw [hreq] at h; exact absurd h (by simp)
    | nil =>
      rw [hreq] at h
      dsimp only at h
      cases halo : alookup s.properties r with
      | none => rw [halo] at h; exact absurd h (by simp)
      | some pd' =>
        rw [halo] at h
        dsimp only at h
        by_cases hty : pd'.ptype = some ("object")
        · rw [if_pos hty] at h
          injection h with h'
          injection h' with h1 h2
          subst h1
          subst h2
          exact ⟨rfl, halo, hty⟩
        · rw [if_neg hty] at h
          exact absurd h (by simp)

theorem normalize_eq_of_not_objroot (s : Schema) (args : JDict)
    (h : isObjectRoot s = none) :
    ToolManager.normalize_arguments s args = args := by
  unfold ToolManager.normalize_arguments
  cases hreq : s.required with
  | nil => rfl
  | cons r rest =>
    cases rest with
    | cons r2 rs => rfl
    | nil =>
      dsimp only
      cases halo : alookup s.properties r with
      | none =>
        simp [PropDef.empty, PropDef.ptype]
      | some pd =>
        simp only [Option.getD_some]
        have hty : ¬ pd.ptype = some ("object") := by
          intro hty2
          unfold isObjectRoot at h
          rw [hreq] at h
          dsimp only at h
          rw [halo] at h
          dsimp only at h
          rw [if_pos hty2] at h
          exact absurd h (by simp)
        rw [if_neg hty]

theorem normalize_eq_of_root_present (s : Schema) (args : JDict) (root : String)
    (pd : PropDef) (h : isObjectRoot s = some (root, pd))
    (hp : (jlookup args root).isSome = true) :
    ToolManager.normalize_arguments s args = args := by
  obtain ⟨hreq, halo, hty⟩ := isObjectRoot_elim s root pd h
  unfold ToolManager.normalize_arguments
  rw [hreq]
  dsimp only
  rw [halo]
  simp only [Option.getD_some]
  rw [if_pos hty, if_pos hp]

theorem normalize_eq_of_root_absent (s : Schema) (args : JDict) (root : String)
    (pd : PropDef) (h : isObjectRoot s = some (root, pd))
    (hab : jlookup args root = none) :
    ToolManager.normalize_arguments s args
      = (if (collectInnerArgs pd.preq (pd.pprops.getD []) args).isEmpty then args
        else
          jset ((jkeys (collectInnerArgs pd.preq (pd.pprops.getD []) args)).foldl
              (fun a k => jremove a k) args) root
            (.obj (collectInnerArgs pd.preq (pd.pprops.getD []) args))) := by
  obtain ⟨hreq, halo, hty⟩ := isObjectRoot_elim s root pd h
  unfold ToolManager.normalize_arguments
  rw [hreq]
  dsimp only
  rw [halo]
  simp only [Option.getD_some]
  rw [if_pos hty, hab]
  simp only [Option.isSome_none, Bool.false_eq_true, if_false]

/-- C7 (counterexample).  `crear_avion` has the object root `datos` with inner
property `modelo`; the flat argument key `Modelo` matches it through the
lowercase variant, so its value is copied into the root object — but the code
pops the *inner name* `modelo` from the top level, not the matched flat key,
so `Modelo` is still present at top level afterwards: the claimed
"removes it from the top level" fails for variant matches. -/
theorem normalize_keeps_variant_key_counterexample :
    ToolManager.normalize_arguments crearAvionSchema [(("Modelo"), .str ("X100"))]
      = [(("Modelo"), .str ("X100")),
        (("datos"), .obj [(("modelo"), .str ("X100"))])] ∧
    ("Modelo") ∈ jkeys (ToolManager.normalize_arguments crearAvionSchema
      [(("Modelo"), .str ("X100"))]) := by
  constructor
  · rfl
  · decide

/-- C7 (amended).  `normalize_arguments` returns the arguments unchanged for
every non-object-root schema and whenever the root key is already present; for
an object-root schema with the root key absent it nests the collected dict
(every inner name with a variant-matching flat key, values taken from the
matched flat keys) under the root key, and removes from the top level exactly
the keys equal to a collected *inner name* — a flat key that matches only via a
lowercase/camelCase/punctuation variant is copied, not moved, and stays at top
level (see the counterexample). -/
theorem normalize_arguments_behavior (s : Schema) (args : JDict) :
    (isObjectRoot s = none → ToolManager.normalize_arguments s args = args) ∧
    (∀ root pd, isObjectRoot s = some (root, pd) →
      ((jlookup args root).isSome = true →
        ToolManager.normalize_arguments s args = args) ∧
      (jlookup args root = none →
        (collectInnerArgs pd.preq (pd.pprops.getD []) args = [] →
          ToolManager.normalize_arguments s args = args) ∧
        (collectInnerArgs pd.preq (pd.pprops.getD []) args ≠ [] →
          ToolManager.normalize_arguments s args
            = jset ((jkeys (collectInnerArgs pd.preq (pd.pprops.getD []) args)).foldl
                (fun a k => jremove a k) args) root
                (.obj (collectInnerArgs pd.preq (pd.pprops.getD []) args))))) ∧
    (∀ (req : List String) (props : List (String × PropDef)) (k : String),
      k ∈ jkeys (collectInnerArgs req props args) → k ∈ req ∨ k ∈ jkeys props) ∧
    (∀ (req : List String) (props : List (String × PropDef)) (k : String),
      (k ∈ req ∨ k ∈ jkeys props) →
      (firstVariantHit (key_variants k) (flatLower (jkeys args))).isSome = true →
      k ∈ jkeys (collectInnerArgs req props args)) := by
  refine ⟨normalize_eq_of_not_objroot s args, ?_, ?_, ?_⟩
  · intro root pd h
    refine ⟨normalize_eq_of_root_present s args root pd h, ?_⟩
    intro hab
    constructor
    · intro hc
      rw [normalize_eq_of_root_absent s args root pd h hab, hc]
      simp
    · intro hc
      rw [normalize_eq_of_root_absent s args root pd h hab,
        if_neg (by simp [List.isEmpty_eq_false.mpr hc])]
  · exact fun req props k hk => collectInnerArgs_keys_sub req props args k hk
  · exact fun req props k hk hhit =>
      collectInnerArgs_keys_complete req props args k hk hhit

/-- Witness for C7's amended theorem: the flat key `modelo` (an exact inner
name) is moved under `datos` and removed from the top level. -/
theorem normalize_arguments_behavior_witness :
    ToolManager.normalize_arguments crearAvionSchema [(("modelo"), .str ("X100"))]
      = jset ((jkeys (collectInnerArgs [("modelo")]
            [(("modelo"), PropDef.mk (some ("string")) none [] false false)]
            [(("modelo"), .str ("X100"))])).foldl
          (fun a k => jremove a k) [(("modelo"), .str ("X100"))]) ("datos")
        (.obj (collectInnerArgs [("modelo")]
          [(("modelo"), PropDef.mk (some ("string")) none [] false false)]
          [(("modelo"), .str ("X100"))])) :=
  (((normalize_arguments_behavior crearAvionSchema
      [(("modelo"), .str ("X100"))]).2.1 ("datos")
    (PropDef.mk (some ("object"))
      (some [(("modelo"), PropDef.mk (some ("string")) none [] false false)])
      [("modelo")] false false) rfl).2 rfl).2 (by exact List.cons_ne_nil _ _)

/-! ## Proofs: rank_tools (C5) -/

theorem mem_insertRankedDesc (l : List RankedTool) (x y : RankedTool)
    (h : y ∈ insertRankedDesc l x) : y ∈ l ∨ y = x := by
  induction l with
  | nil =>
    unfold insertRankedDesc at h
    exact Or.inr (List.mem_singleton.mp h)
  | cons z zs ih =>
    unfold insertRankedDesc at h
    split at h
    · rcases List.mem_cons.mp h with h1 | h2
      · exact Or.inr h1
      · exact Or.inl h2
    · rcases List.mem_cons.mp h with h1 | h2
      · exact Or.inl (h1 ▸ List.mem_cons_self z zs)
      · rcases ih h2 with h3 | h4
        · exact Or.inl (List.mem_cons_of_mem z h3)
        · exact Or.inr h4

theorem pairwise_insertRankedDesc (l : List RankedTool) (x : RankedTool)
    (h : l.Pairwise (fun a b => b.score ≤ a.score)) :
    (insertRankedDesc l x).Pairwise (fun a b => b.score ≤ a.score) := by
  induction l with
  | nil =>
    unfold insertRankedDesc
    exact List.pairwise_singleton _ x
  | cons z zs ih =>
    obtain ⟨hz, hzs⟩ := List.pairwise_cons.mp h
    unfold insertRankedDesc
    split
    · next hlt =>
      refine List.pairwise_cons.mpr ⟨?_, h⟩
      intro b hb
      rcases List.mem_cons.mp hb with h1 | h2
      · exact h1 ▸ le_of_lt hlt
      · exact (hz b h2).trans (le_of_lt hlt)
    · next hnlt =>
      refine List.pairwise_cons.mpr ⟨?_, ih hzs⟩
      intro b hb
      rcases mem_insertRankedDesc zs x b hb with h1 | h2
      · exact hz b h1
      · exact h2 ▸ not_lt.mp hnlt

theorem sortRankedDesc_pairwise (l : List RankedTool) :
    (sortRankedDesc l).Pairwise (fun a b => b.score ≤ a.score) := by
  unfold sortRankedDesc
  suffices hgen : ∀ acc, acc.Pairwise (fun a b : RankedTool => b.score ≤ a.score) →
      (l.foldl insertRankedDesc acc).Pairwise (fun a b => b.score ≤ a.score) from
    hgen [] (List.Pairwise.nil)
  induction l with
  | nil => exact fun acc hacc => hacc
  | cons x xs ih =>
    exact fun acc hacc => ih (insertRankedDesc acc x)
      (pairwise_insertRankedDesc acc x hacc)

theorem foldl_insertRankedDesc_mem : ∀ (l acc : List RankedTool) (y : RankedTool),
    y ∈ l.foldl insertRankedDesc acc → y ∈ acc ∨ y ∈ l := by
  intro l
  induction l with
  | nil => exact fun acc y hy => Or.inl hy
  | cons x xs ih =>
    intro acc y hy
    rcases ih (insertRankedDesc acc x) y hy with h1 | h2
    · rcases mem_insertRankedDesc acc x y h1 with h3 | h4
      · exact Or.inl h3
      · exact Or.inr (h4 ▸ List.mem_cons_self x xs)
    · exact Or.inr (List.mem_cons_of_mem x h2)

theorem mem_sortRankedDesc (l : List RankedTool) (y : RankedTool)
    (h : y ∈ sortRankedDesc l) : y ∈ l :=
  (foldl_insertRankedDesc_mem l [] y h).resolve_left (List.not_mem_nil y)

theorem ranked_build_registered (registry : SemanticRegistry) (q : List ℚ)
    (sim : List ℚ → List ℚ → ℚ) (entries : List (String × List ℚ)) :
    ∀ acc, (∀ rt ∈ acc, (registry.get_tool_definition rt.name).isSome = true) →
      ∀ rt ∈ entries.foldl (fun acc p =>
          if p.2.length ≠ q.length then acc
          else
            match registry.get_tool_definition p.1 with
            | some tool => acc ++ [RankedTool.mk p.1 (sim q p.2) tool]
            | none => acc) acc,
        (registry.get_tool_definition rt.name).isSome = true := by
  induction entries with
  | nil => exact fun acc hacc => hacc
  | cons p ps ih =>
    intro acc hacc
    refine ih _ ?_
    intro rt hrt
    dsimp only at hrt
    split at hrt
    · exact hacc rt hrt
    · split at hrt
      · next tool htool =>
        rcases List.mem_append.mp hrt with h1 | h2
        · exact hacc rt h1
        · have : rt = RankedTool.mk p.1 (sim q p.2) tool := List.mem_singleton.mp h2
          rw [this]
          simp [htool]
      · exact hacc rt hrt

/-- `top_k or self.max_candidates` (a given 0 is falsy and falls back). -/
def limitOf (top_k : Option Nat) (maxc : Nat) : Nat :=
  match top_k with
  | some k => if k = 0 then maxc else k
  | none => maxc

/-- C5 (amended).  On the embedding path (selector initialized and a query
embedding available), `rank_tools` returns at most `top_k` entries when
`top_k` is a *nonzero* given value and at most `max_candidates` otherwise
(`top_k or self.max_candidates` treats the given value 0 as absent, see the
counterexample), sorted by score in non-increasing order, and every returned
name resolves in the registry. -/
theorem rank_tools_bounded_sorted_registered (eo : EmbedOracle)
    (st : SelectorState) (query : String) (registry : SemanticRegistry)
    (top_k : Option Nat) (res : List RankedTool) (st' : SelectorState)
    (h : SemanticSelector.rank_tools eo st query registry top_k
        = some (res, st')) :
    res.length ≤ limitOf top_k st.max_candidates ∧
    res.Pairwise (fun a b => b.score ≤ a.score) ∧
    ∀ rt ∈ res, (registry.get_tool_definition rt.name).isSome = true := by
  unfold SemanticSelector.rank_tools at h
  split at h
  · injection h with h'
    obtain ⟨h1, _⟩ := Prod.mk.injEq _ _ _ _ |>.mp h'
    subst h1
    exact ⟨by simp, List.Pairwise.nil, by simp⟩
  · split at h
    · exact absurd h (by simp)
    · cases hq : eo.embedQuery query with
      | none => rw [hq] at h; exact absurd h (by simp)
      | some q =>
        rw [hq] at h
        dsimp only at h
        injection h with h'
        obtain ⟨h1, _⟩ := Prod.mk.injEq _ _ _ _ |>.mp h'
        subst h1
        refine ⟨List.length_take_le _ _, ?_, ?_⟩
        · exact (sortRankedDesc_pairwise _).sublist (List.take_sublist _ _)
        · intro rt hrt
          have hsorted := (List.take_sublist _ _).mem hrt
          have hranked := mem_sortRankedDesc _ rt hsorted
          exact ranked_build_registered registry q eo.sim _ [] (by simp) rt hranked

/-- Oracles returning a fixed one-dimensional embedding and a zero score. -/
def eoUnit : EmbedOracle := ⟨fun _ => some [1], fun _ => some [1], fun _ _ => 0⟩

/-- A one-tool registry. -/
def regOne : SemanticRegistry := ⟨[(("get_aviones"), sampleTool)]⟩

/-- Selector state with the tool already indexed and its text current. -/
def stOne : SelectorState :=
  ⟨[(("get_aviones"), [1])], [(("get_aviones"), ("get_aviones Lista aviones"))],
    5, true⟩

/-- C5 (counterexample).  With `top_k = 0` the Python expression
`top_k or self.max_candidates` is falsy and falls back to `max_candidates`, so
`rank_tools` returns 1 entry even though the claim ("at most `top_k`") demands
at most 0. -/
theorem rank_tools_topk_zero_counterexample :
    (SemanticSelector.rank_tools eoUnit stOne ("lista aviones") regOne
        (some 0)).map (fun p => p.1.length) = some 1 ∧ (0 : Nat) < 1 := by
  constructor
  · rfl
  · decide

/-- Witness for C5's amended theorem at the one-tool state. -/
theorem rank_tools_bounded_sorted_registered_witness :
    [RankedTool.mk ("get_aviones") 0 sampleTool].length ≤
        limitOf (some 0) stOne.max_candidates ∧
    List.Pairwise (fun a b => b.score ≤ a.score)
      [RankedTool.mk ("get_aviones") 0 sampleTool] ∧
    ∀ rt ∈ [RankedTool.mk ("get_aviones") 0 sampleTool],
      (regOne.get_tool_definition rt.name).isSome = true :=
  rank_tools_bounded_sorted_registered eoUnit stOne ("lista aviones") regOne
    (some 0) [RankedTool.mk ("get_aviones") 0 sampleTool] stOne rfl

/-! ## Proofs: extract_arguments (C6) -/

theorem mem_insertStrAsc (l : List String) (x y : String)
    (h : y ∈ insertStrAsc x l) : y = x ∨ y ∈ l := by
  induction l with
  | nil =>
    unfold insertStrAsc at h
    exact Or.inl (List.mem_singleton.mp h)
  | cons z zs ih =>
    unfold insertStrAsc at h
    split at h
    · rcases List.mem_cons.mp h with h1 | h2
      · exact Or.inl h1
      · exact Or.inr h2
    · rcases List.mem_cons.mp h with h1 | h2
      · exact Or.inr (h1 ▸ List.mem_cons_self z zs)
      · rcases ih h2 with h3 | h4
        · exact Or.inl h3
        · exact Or.inr (List.mem_cons_of_mem z h4)

theorem mem_sortStrings (l : List String) (y : String) (h : y ∈ sortStrings l) :
    y ∈ l := by
  unfold sortStrings at h
  induction l with
  | nil => exact absurd h (List.not_mem_nil y)
  | cons x xs ih =>
    rcases mem_insertStrAsc _ x y h with h1 | h2
    · exact h1 ▸ List.mem_cons_self x xs
    · exact List.mem_cons_of_mem x (ih h2)

theorem extract_foldl_keys (ve : Extractor) (text : String)
    (f : String → String × PropDef) (ks : List String) (k : String)
    (h : k ∈ jkeys (ks.foldl (fun acc g =>
        match ve text g (f g) with
        | some v => jset acc g v
        | none => acc) [])) : k ∈ ks := by
  have hstep : ∀ (c : JDict) (g : String) (a : String),
      a ∈ jkeys ((fun acc g =>
        match ve text g (f g) with
        | some v => jset acc g v
        | none => acc) c g) → a ∈ jkeys c ∨ a = g := by
    intro c g a ha
    dsimp only at ha
    split at ha
    · exact jset_keys_sub _ _ _ _ ha
    · exact Or.inl ha
  rcases keys_foldl_sub _ hstep ks [] k h with h1 | h2
  · exact absurd h1 (List.not_mem_nil k)
  · exact h2

theorem extract_object_root_shape (ve : Extractor) (root : String)
    (inner : PropDef) (text : String) :
    SchemaExtractor.extract_object_root ve root inner text = [] ∨
    ∃ m, SchemaExtractor.extract_object_root ve root inner text
        = [(root, .obj m)] ∧
      ∀ k ∈ jkeys m, k ∈ jkeys (inner.pprops.getD []) := by
  unfold SchemaExtractor.extract_object_root
  dsimp only
  split
  · exact Or.inl rfl
  · refine Or.inr ⟨_, rfl, ?_⟩
    intro k hk
    have hks := extract_foldl_keys ve text
      (fun g => (effTypeObjectRoot ((alookup (inner.pprops.getD []) g).getD
        PropDef.empty),
        (alookup (inner.pprops.getD []) g).getD PropDef.empty))
      (sortStrings (jkeys (inner.pprops.getD []))) k hk
    exact mem_sortStrings _ k hks

theorem extract_flat_params_keys (ve : Extractor) (s : Schema) (text : String)
    (k : String) (h : k ∈ jkeys (SchemaExtractor.extract_flat_params ve s text)) :
    k ∈ jkeys s.properties := by
  unfold SchemaExtractor.extract_flat_params at h
  have hks := extract_foldl_keys ve text
    (fun g => (effTypeFlat ((alookup s.properties g).getD PropDef.empty),
      (alookup s.properties g).getD PropDef.empty))
    (sortStrings (jkeys s.properties)) k h
  exact mem_sortStrings _ k hks

/-- C6.  For every value-extractor behaviour, model-mapper behaviour, schema
and non-empty text, `extract_arguments` is JSON-schema-shaped with respect to
the schema it analyzes (the input schema after the code's own
`_ensure_properties_inlined` model/`$ref` inlining, which is the identity when
no pydantic model applies): in the object-root case the result is `{}` or
`{root_key: inner}` with the inner keys among the root object's declared
properties, and otherwise it is a flat dict whose keys are among the declared
properties. -/
theorem extract_arguments_schema_shaped (ve : Extractor) (mm : ModelMapper)
    (s : Schema) (text : String) (tool_name : Option String) (ht : text ≠ "") :
    (∀ root inner,
      analyzeSchemaStructure (ensurePropertiesInlined mm s tool_name)
          = .object_root root inner →
      SchemaExtractor.extract_arguments ve mm s text tool_name = [] ∨
      ∃ m, SchemaExtractor.extract_arguments ve mm s text tool_name
            = [(root, .obj m)] ∧
          ∀ k ∈ jkeys m, k ∈ jkeys (inner.pprops.getD [])) ∧
    (analyzeSchemaStructure (ensurePropertiesInlined mm s tool_name) = .flat →
      ∀ k ∈ jkeys (SchemaExtractor.extract_arguments ve mm s text tool_name),
        k ∈ jkeys (ensurePropertiesInlined mm s tool_name).properties) := by
  constructor
  · intro root inner ha
    unfold SchemaExtractor.extract_arguments
    rw [if_neg ht]
    simp only [ha]
    exact extract_object_root_shape ve root inner text
  · intro ha k hk
    unfold SchemaExtractor.extract_arguments at hk
    rw [if_neg ht] at hk
    simp only [ha] at hk
    exact extract_flat_params_keys ve _ text k hk

/-- A trivial model mapper (no pydantic model registered anywhere). -/
def mmNone : ModelMapper := ⟨fun _ => none, fun _ => none⟩

/-- A value extractor that finds nothing. -/
def veNone : Extractor := fun _ _ _ => none

/-- Witness for C6 on the `crear_avion` object-root schema with an extractor
that finds nothing. -/
theorem extract_arguments_schema_shaped_witness :
    SchemaExtractor.extract_arguments veNone mmNone crearAvionSchema
        ("crear un avion modelo X100") none = [] ∨
    ∃ m, SchemaExtractor.extract_arguments veNone mmNone crearAvionSchema
          ("crear un avion modelo X100") none
        = [(("datos"), .obj m)] ∧
      ∀ k ∈ jkeys m,
        k ∈ jkeys ((PropDef.mk (some ("object"))
          (some [(("modelo"), PropDef.mk (some ("string")) none [] false false)])
          [("modelo")] false false).pprops.getD []) :=
  (extract_arguments_schema_shaped veNone mmNone crearAvionSchema
      ("crear un avion modelo X100") none (by decide)).1 ("datos")
    (PropDef.mk (some ("object"))
      (some [(("modelo"), PropDef.mk (some ("string")) none [] false false)])
      [("modelo")] false false) rfl

end Spec2Proof
